import Mathlib

/-!
Shallow embedding of the clinic-mcp-server booking engine, JWT HS256
authenticator and auth middleware, with theorems checking the spec claims.

Conventions of the embedding:
* Python strings are modelled as `List Char`; byte strings as `List (Fin 256)`.
* The SQLite database state visible to the claims (slots, doctors, bills) is
  an explicit record `ClinicState`; each SQL statement of the source becomes a
  pure state transformer translated clause by clause.
* A Python function that can raise returns `Except`; each distinct raise site
  gets its own error constructor.
* Machine/IEEE REAL columns (fees, ratings, amounts) are only ever stored and
  copied by the code under scrutiny, never computed with, so they are carried
  as `Int` values.
-/

/-- Decimal digits of a natural number, as Python str(n) produces them. -/
def natToDec (n : Nat) : List Char :=
  if h : n < 10 then [Char.ofNat (48 + n)]
  else natToDec (n / 10) ++ [Char.ofNat (48 + n % 10)]
decreasing_by exact Nat.div_lt_self (by omega) (by omega)

/-- Lexicographic strict comparison on strings (character code point order),
matching how SQLite compares TEXT values with the default BINARY collation
on the ASCII date/time strings used by the schema. -/
def strLt : List Char → List Char → Bool
  | [], [] => false
  | [], _ :: _ => true
  | _ :: _, [] => false
  | a :: as, b :: bs => if a < b then true else if a = b then strLt as bs else false

/-- Non-strict string comparison: strict or equal. -/
def strLe (a b : List Char) : Bool := strLt a b || a == b

/-- ASCII lowercasing, as SQLite LIKE folds case for ASCII letters. -/
def lowerAscii (s : List Char) : List Char :=
  s.map fun c => if 'A' ≤ c && c ≤ 'Z' then Char.ofNat (c.toNat + 32) else c

/-- Does the second list start with the first? -/
def startsWithL : List Char → List Char → Bool
  | [], _ => true
  | _ :: _, [] => false
  | p :: ps, c :: cs => p == c && startsWithL ps cs

/-- Substring containment on character lists. -/
def containsL (p : List Char) : List Char → Bool
  | [] => p.isEmpty
  | c :: cs => startsWithL p (c :: cs) || containsL p cs

/-- SQLite LIKE with pattern %p% : case-insensitive (ASCII) substring match. -/
def likeContains (p s : List Char) : Bool :=
  containsL (lowerAscii p) (lowerAscii s)

/-- Python truthiness of an optional string: None and the empty string are
falsy, every other string is truthy. -/
def truthy : Option (List Char) → Bool
  | some (_ :: _) => true
  | _ => false

/-! ## Data model: rows of the SQLite schema (model/clinic_db.py, create_tables) -/

/-- A row of the slots table. -/
structure SlotRow where
  slot_id : Nat
  dr_id : Nat
  user_id : Option Nat
  date : List Char
  start_time : List Char
  end_time : List Char
deriving DecidableEq

/-- A row of the doctors table. -/
structure DoctorRow where
  dr_id : Nat
  dr_name : List Char
  slot_visiting_time : Nat
  visit_fee : Int
  specialty : List Char
  rating : Int
deriving DecidableEq

/-- A row of the bills table (append-only ledger). -/
structure BillRow where
  bill_id : Nat
  pay_id : Nat
  slot_id : Option Nat
  date : List Char
  amount : Int
deriving DecidableEq

/-- The database state the booking claims are about.  nextBillId models the
AUTOINCREMENT counter of the bills table. -/
structure ClinicState where
  doctors : List DoctorRow
  slots : List SlotRow
  bills : List BillRow
  nextBillId : Nat
deriving DecidableEq

/-- The result row type of search_available_appointments (pydantic model
AppointmentSlot in model/clinic_db.py). -/
structure AppointmentSlot where
  slot_id : Nat
  dr_name : List Char
  specialty : List Char
  date : List Char
  start_time : List Char
  end_time : List Char
  visit_fee : Int
  rating : Int
deriving DecidableEq

/-- Errors raised by ClinicDB methods: ValueError with a message. -/
inductive DbErr where
  | valueError (msg : List Char)
deriving DecidableEq

/-- Domain error taxonomy of domain/errors.py. -/
inductive ClinicError where
  | notFound (msg : List Char)
  | validationError (msg : List Char)
  | conflict (msg : List Char)
deriving DecidableEq

/-- The row predicate of the conditional UPDATE of add_appointment:
WHERE slot_id = ? AND user_id IS NULL. -/
def claimHit (slot_id : Nat) (r : SlotRow) : Bool :=
  r.slot_id == slot_id && r.user_id == none

namespace ClinicDB

/-- The message of the ValueError raised by ClinicDB.add_appointment; it
depends only on the slot id, not on which failure cause occurred. -/
def slotUnavailableMsg (slot_id : Nat) : List Char :=
  "Slot ".toList ++ natToDec slot_id
    ++ " is not available (already booked or does not exist).".toList

/-- ClinicDB.add_appointment: the single conditional UPDATE
SET user_id = ? WHERE slot_id = ? AND user_id IS NULL, committed, then the
rowcount check raising ValueError when it is not exactly 1.  The returned
state is the committed state (the update itself touches no row when the
condition matches none). -/
def add_appointment (st : ClinicState) (user_id slot_id : Nat) :
    ClinicState × Except DbErr Nat :=
  let rowcount := st.slots.countP (claimHit slot_id)
  let slots' := st.slots.map fun r =>
    if claimHit slot_id r then { r with user_id := some user_id } else r
  let st' := { st with slots := slots' }
  if rowcount == 1 then (st', .ok slot_id)
  else (st', .error (.valueError (slotUnavailableMsg slot_id)))

/-- ClinicDB.remove_appointment: unconditional UPDATE slots
SET user_id = NULL WHERE slot_id = ?, committed; no raise path exists. -/
def remove_appointment (st : ClinicState) (slot_id : Nat) :
    ClinicState × Except DbErr Unit :=
  ({ st with
      slots := st.slots.map fun r =>
        if r.slot_id == slot_id then { r with user_id := none } else r },
   .ok ())

/-- ClinicDB.bill_user: INSERT INTO bills (two syntactic branches in the
source, with and without the slot_id column, the omitted column defaulting to
NULL), committed; returns lastrowid. -/
def bill_user (st : ClinicState) (pay_id : Nat) (amount : Int)
    (slot_id : Option Nat) (now : List Char) : ClinicState × Nat :=
  match slot_id with
  | none =>
      ({ st with
          bills := st.bills ++
            [{ bill_id := st.nextBillId, pay_id := pay_id, slot_id := none,
               date := now, amount := amount }],
          nextBillId := st.nextBillId + 1 },
       st.nextBillId)
  | some sid =>
      ({ st with
          bills := st.bills ++
            [{ bill_id := st.nextBillId, pay_id := pay_id, slot_id := some sid,
               date := now, amount := amount }],
          nextBillId := st.nextBillId + 1 },
       st.nextBillId)

end ClinicDB

namespace SQLiteClinicRepository

/-- SQLiteClinicRepository.add_appointment: delegates to
ClinicDB.add_appointment and translates ValueError to ConflictError. -/
def add_appointment (st : ClinicState) (user_id slot_id : Nat) :
    ClinicState × Except ClinicError Nat :=
  match ClinicDB.add_appointment st user_id slot_id with
  | (st', .ok n) => (st', .ok n)
  | (st', .error (.valueError m)) => (st', .error (.conflict m))

/-- SQLiteClinicRepository.remove_appointment: delegates with no translation;
the delegate has no raise path, so neither has this. -/
def remove_appointment (st : ClinicState) (slot_id : Nat) :
    ClinicState × Except ClinicError Unit :=
  ((ClinicDB.remove_appointment st slot_id).1, .ok ())

/-- SQLiteClinicRepository.bill_user: direct delegation. -/
def bill_user (st : ClinicState) (pay_id : Nat) (amount : Int)
    (slot_id : Option Nat) (now : List Char) : ClinicState × Nat :=
  ClinicDB.bill_user st pay_id amount slot_id now

end SQLiteClinicRepository

namespace ClinicService

/-- ClinicService.schedule_appointment: claim the slot, then record a bill
referencing the booked slot; the bill step runs only after a successful
claim, and a raise from the claim propagates unchanged. -/
def schedule_appointment (st : ClinicState) (user_id pay_id slot_id : Nat)
    (payment_amount : Int) (now : List Char) :
    ClinicState × Except ClinicError Nat :=
  match SQLiteClinicRepository.add_appointment st user_id slot_id with
  | (st', .error e) => (st', .error e)
  | (st', .ok booked) =>
      let r := SQLiteClinicRepository.bill_user st' pay_id payment_amount
        (some booked) now
      (r.1, .ok booked)

end ClinicService

/-! ## Interleaved claim executions (for the concurrency claim) -/

/-- One atomic claim attempt (the claim operation of the engine is a single
conditional UPDATE, hence one atomic step of any interleaving). -/
def claimStep (st : ClinicState) (op : Nat × Nat) :
    ClinicState × Except ClinicError Nat :=
  SQLiteClinicRepository.add_appointment st op.1 op.2

/-- Run a sequence of atomic claim attempts (an interleaving of concurrent
claims), collecting each attempt's outcome. -/
def runClaims (st : ClinicState) :
    List (Nat × Nat) → ClinicState × List ((Nat × Nat) × Except ClinicError Nat)
  | [] => (st, [])
  | op :: ops =>
      ((runClaims (claimStep st op).1 ops).1,
       (op, (claimStep st op).2) :: (runClaims (claimStep st op).1 ops).2)

/-- Number of successful outcomes among the attempts that target slot sid. -/
def successesFor (sid : Nat)
    (rs : List ((Nat × Nat) × Except ClinicError Nat)) : Nat :=
  rs.countP fun x => x.1.2 == sid && (x.2.toOption).isSome

/-! ## SearchAvailableSlots (ClinicDB.search_available_appointments) -/

/-- The ORDER BY s.date ASC, s.start_time ASC comparison, as a Boolean
relation on result rows. -/
def slotLeB (a b : AppointmentSlot) : Bool :=
  strLt a.date b.date || (a.date == b.date && strLe a.start_time b.start_time)

/-- The ORDER BY comparison as a proposition. -/
def slotLe (a b : AppointmentSlot) : Prop := slotLeB a b = true

instance : DecidableRel slotLe := fun a b => by
  unfold slotLe; infer_instance

/-- The WHERE clause of search_available_appointments, applied to a joined
(slot, doctor) row: specialty equality, unoccupied, not in the past, then
the three optional filters, each appended to the query only when the Python
argument is truthy. -/
def searchPred (today specialty : List Char)
    (doctor_name start_date end_date : Option (List Char))
    (s : SlotRow) (d : DoctorRow) : Bool :=
  d.specialty == specialty
    && s.user_id == none
    && strLe today s.date
    && (if truthy doctor_name then likeContains (doctor_name.getD []) d.dr_name
        else true)
    && (if truthy start_date then strLe (start_date.getD []) s.date else true)
    && (if truthy end_date then strLe s.date (end_date.getD []) else true)

/-- ClinicDB.search_available_appointments: join slots with doctors on dr_id
(dr_id is the doctors PRIMARY KEY, so the first matching doctor row is the
row), filter by the WHERE clause, ORDER BY (date, start_time) ascending,
LIMIT 10.  today stands for SQLite date('now'). -/
def ClinicDB.search_available_appointments (st : ClinicState)
    (today specialty : List Char)
    (doctor_name start_date end_date : Option (List Char)) :
    List AppointmentSlot :=
  let rows := st.slots.filterMap fun s =>
    match st.doctors.find? (fun d => d.dr_id == s.dr_id) with
    | none => none
    | some d =>
        if searchPred today specialty doctor_name start_date end_date s d then
          some { slot_id := s.slot_id, dr_name := d.dr_name,
                 specialty := d.specialty, date := s.date,
                 start_time := s.start_time, end_time := s.end_time,
                 visit_fee := d.visit_fee, rating := d.rating }
        else none
  (List.insertionSort slotLe rows).take 10

/-- A slot is bookable when it exists and its occupant is unset. -/
def bookable (st : ClinicState) (slot_id : Nat) : Prop :=
  ∃ r ∈ st.slots, r.slot_id = slot_id ∧ r.user_id = none

instance (st : ClinicState) (sid : Nat) : Decidable (bookable st sid) := by
  unfold bookable; infer_instance

/-- The state committed by the conditional UPDATE of add_appointment. -/
def claimedState (st : ClinicState) (uid sid : Nat) : ClinicState :=
  { st with
      slots := st.slots.map fun r =>
        if claimHit sid r then { r with user_id := some uid } else r }

/-- After the conditional UPDATE targeting sid has run (in either outcome),
no unoccupied row with that slot id remains. -/
def noFree (st : ClinicState) (sid : Nat) : Prop :=
  ∀ r ∈ st.slots, r.slot_id = sid → r.user_id ≠ none

/-- A one-slot fixture state used by the concrete witnesses. -/
def st0 : ClinicState :=
  { doctors := [],
    slots := [{ slot_id := 1, dr_id := 1, user_id := none,
                date := "2026-01-05".toList, start_time := "09:00".toList,
                end_time := "09:30".toList }],
    bills := [], nextBillId := 1 }

/-! ## Bytes and text encodings (auth/jwt_hs256.py works over Python str and
bytes; bytes are `Fin 256` values) -/

/-- A byte. -/
abbrev Byte := Fin 256

/-- Truncate a natural number to a byte. -/
def byteOf (n : Nat) : Byte := ⟨n % 256, Nat.mod_lt _ (by omega)⟩

/-- UTF-8 encoding of one character (scalar value). -/
def utf8Char (c : Char) : List Byte :=
  let n := c.toNat
  if n < 0x80 then [byteOf n]
  else if n < 0x800 then [byteOf (0xC0 + n / 64), byteOf (0x80 + n % 64)]
  else if n < 0x10000 then
    [byteOf (0xE0 + n / 4096), byteOf (0x80 + n / 64 % 64), byteOf (0x80 + n % 64)]
  else
    [byteOf (0xF0 + n / 262144), byteOf (0x80 + n / 4096 % 64),
     byteOf (0x80 + n / 64 % 64), byteOf (0x80 + n % 64)]

/-- Python str.encode("utf-8"). -/
def utf8Encode (s : List Char) : List Byte := (s.map utf8Char).flatten

/-- Python bytes.decode("utf-8"), one code point: strict decoding,
rejecting bad leads, bad continuations, overlong forms, surrogates and
out-of-range values. -/
def utf8DecodeOne (b1 : Byte) (rest : List Byte) : Option (Char × List Byte) :=
  if b1.val < 0x80 then some (Char.ofNat b1.val, rest)
  else if b1.val < 0xC0 then none
  else if b1.val < 0xE0 then
    match rest with
    | b2 :: rest2 =>
        if 0x80 ≤ b2.val ∧ b2.val < 0xC0 then
          let n := (b1.val - 0xC0) * 64 + (b2.val - 0x80)
          if 0x80 ≤ n then some (Char.ofNat n, rest2) else none
        else none
    | _ => none
  else if b1.val < 0xF0 then
    match rest with
    | b2 :: b3 :: rest3 =>
        if (0x80 ≤ b2.val ∧ b2.val < 0xC0) ∧ (0x80 ≤ b3.val ∧ b3.val < 0xC0) then
          let n := (b1.val - 0xE0) * 4096 + (b2.val - 0x80) * 64 + (b3.val - 0x80)
          if 0x800 ≤ n ∧ ¬ (0xD800 ≤ n ∧ n < 0xE000) then
            some (Char.ofNat n, rest3)
          else none
        else none
    | _ => none
  else if b1.val < 0xF5 then
    match rest with
    | b2 :: b3 :: b4 :: rest4 =>
        if (0x80 ≤ b2.val ∧ b2.val < 0xC0) ∧ (0x80 ≤ b3.val ∧ b3.val < 0xC0)
            ∧ (0x80 ≤ b4.val ∧ b4.val < 0xC0) then
          let n := (b1.val - 0xF0) * 262144 + (b2.val - 0x80) * 4096
            + (b3.val - 0x80) * 64 + (b4.val - 0x80)
          if 0x10000 ≤ n ∧ n < 0x110000 then some (Char.ofNat n, rest4)
          else none
        else none
    | _ => none
  else none

/-- Decoding loop; each code point consumes at least one byte, so the input
length is enough fuel. -/
def utf8DecodeLoop : Nat → List Byte → Option (List Char)
  | _, [] => some []
  | 0, _ :: _ => none
  | fuel + 1, b :: rest =>
      match utf8DecodeOne b rest with
      | none => none
      | some (c, rest2) => (utf8DecodeLoop fuel rest2).map fun cs => c :: cs

/-- Python bytes.decode("utf-8"). -/
def utf8Decode (bs : List Byte) : Option (List Char) :=
  utf8DecodeLoop bs.length bs

/-- Is the string pure ASCII (so that str.encode("ascii") succeeds)? -/
def asciiOK (s : List Char) : Bool := s.all fun c => decide (c.toNat < 128)

/-- Code points as bytes: equals str.encode("ascii") on ASCII strings. -/
def asciiBytes (s : List Char) : List Byte := s.map fun c => byteOf c.toNat

/-! ## base64url without padding (JwtHS256._b64url_encode / _b64url_decode) -/

/-- The base64url alphabet. -/
def b64Alphabet : List Char :=
  "ABCDEFGHIJKLMNOPQRSTUVWXYZabcdefghijklmnopqrstuvwxyz0123456789-_".toList

/-- The character of a 6-bit value. -/
def b64c (n : Nat) : Char := b64Alphabet.getD n '?'

/-- The 6-bit value of an alphabet character. -/
def b64v (c : Char) : Option (Fin 64) :=
  if h1 : 65 ≤ c.toNat ∧ c.toNat ≤ 90 then some ⟨c.toNat - 65, by omega⟩
  else if h2 : 97 ≤ c.toNat ∧ c.toNat ≤ 122 then some ⟨c.toNat - 71, by omega⟩
  else if h3 : 48 ≤ c.toNat ∧ c.toNat ≤ 57 then some ⟨c.toNat + 4, by omega⟩
  else if c = '-' then some ⟨62, by omega⟩
  else if c = '_' then some ⟨63, by omega⟩
  else none

/-- JwtHS256._b64url_encode: urlsafe base64 with the '=' padding stripped. -/
def b64urlEncodeBytes : List Byte → List Char
  | [] => []
  | [a] => [b64c (a.val / 4), b64c (a.val % 4 * 16)]
  | [a, b] =>
      [b64c (a.val / 4), b64c (a.val % 4 * 16 + b.val / 16), b64c (b.val % 16 * 4)]
  | a :: b :: c :: rest =>
      b64c (a.val / 4) :: b64c (a.val % 4 * 16 + b.val / 16) ::
        b64c (b.val % 16 * 4 + c.val / 64) :: b64c (c.val % 64) ::
        b64urlEncodeBytes rest

/-- JwtHS256._b64url_decode: the source re-adds '=' padding and calls
urlsafe_b64decode; a length of 1 mod 4 or a character outside the alphabet
raises (binascii.Error), modelled as none.  Trailing bits of a final partial
group are dropped, as the stdlib does. -/
def b64urlDecodeChars : List Char → Option (List Byte)
  | [] => some []
  | [_] => none
  | [c1, c2] => do
      let v1 ← b64v c1
      let v2 ← b64v c2
      some [⟨v1.val * 4 + v2.val / 16, by
        have := v1.isLt; have := v2.isLt; omega⟩]
  | [c1, c2, c3] => do
      let v1 ← b64v c1
      let v2 ← b64v c2
      let v3 ← b64v c3
      some [⟨v1.val * 4 + v2.val / 16, by
          have := v1.isLt; have := v2.isLt; omega⟩,
        ⟨v2.val % 16 * 16 + v3.val / 4, by
          have := v2.isLt; have := v3.isLt; omega⟩]
  | c1 :: c2 :: c3 :: c4 :: rest => do
      let v1 ← b64v c1
      let v2 ← b64v c2
      let v3 ← b64v c3
      let v4 ← b64v c4
      let bs ← b64urlDecodeChars rest
      some (⟨v1.val * 4 + v2.val / 16, by
          have := v1.isLt; have := v2.isLt; omega⟩ ::
        ⟨v2.val % 16 * 16 + v3.val / 4, by
          have := v2.isLt; have := v3.isLt; omega⟩ ::
        ⟨v3.val % 4 * 64 + v4.val, by
          have := v3.isLt; have := v4.isLt; omega⟩ :: bs)

/-! ## SHA-256 and HMAC (the fixed one-way hash of hashlib / hmac) -/

/-- Truncation to a 32-bit word. -/
def w32 (n : Nat) : Nat := n % 4294967296

/-- Rotate a 32-bit word right by n bits. -/
def rotr32 (x n : Nat) : Nat := x / 2 ^ n + x % 2 ^ n * 2 ^ (32 - n)

/-- Shift a 32-bit word right by n bits. -/
def shr32 (x n : Nat) : Nat := x / 2 ^ n

def bsig0 (x : Nat) : Nat := (rotr32 x 2) ^^^ (rotr32 x 13) ^^^ (rotr32 x 22)

def bsig1 (x : Nat) : Nat := (rotr32 x 6) ^^^ (rotr32 x 11) ^^^ (rotr32 x 25)

def ssig0 (x : Nat) : Nat := (rotr32 x 7) ^^^ (rotr32 x 18) ^^^ (shr32 x 3)

def ssig1 (x : Nat) : Nat := (rotr32 x 17) ^^^ (rotr32 x 19) ^^^ (shr32 x 10)

def chF (x y z : Nat) : Nat := (x &&& y) ^^^ ((x ^^^ 0xFFFFFFFF) &&& z)

def majF (x y z : Nat) : Nat := (x &&& y) ^^^ (x &&& z) ^^^ (y &&& z)

/-- The 64 SHA-256 round constants. -/
def K64 : List Nat :=
  [1116352408, 1899447441, 3049323471, 3921009573, 961987163,
   1508970993, 2453635748, 2870763221, 3624381080, 310598401,
   607225278, 1426881987, 1925078388, 2162078206, 2614888103,
   3248222580, 3835390401, 4022224774, 264347078, 604807628,
   770255983, 1249150122, 1555081692, 1996064986, 2554220882,
   2821834349, 2952996808, 3210313671, 3336571891, 3584528711,
   113926993, 338241895, 666307205, 773529912, 1294757372,
   1396182291, 1695183700, 1986661051, 2177026350, 2456956037,
   2730485921, 2820302411, 3259730800, 3345764771, 3516065817,
   3600352804, 4094571909, 275423344, 430227734, 506948616,
   659060556, 883997877, 958139571, 1322822218, 1537002063,
   1747873779, 1955562222, 2024104815, 2227730452, 2361852424,
   2428436474, 2756734187, 3204031479, 3329325298]

/-- 64-bit big-endian length field. -/
def be64bytes (n : Nat) : List Byte :=
  [byteOf (n / 2 ^ 56), byteOf (n / 2 ^ 48), byteOf (n / 2 ^ 40),
   byteOf (n / 2 ^ 32), byteOf (n / 2 ^ 24), byteOf (n / 2 ^ 16),
   byteOf (n / 2 ^ 8), byteOf n]

/-- SHA-256 message padding. -/
def padMsg (msg : List Byte) : List Byte :=
  let L := msg.length
  msg ++ byteOf 0x80 :: List.replicate ((119 - L % 64) % 64) (byteOf 0)
    ++ be64bytes (8 * L)

/-- Big-endian 32-bit words of a block. -/
def toWords : List Byte → List Nat
  | b0 :: b1 :: b2 :: b3 :: rest =>
      (b0.val * 16777216 + b1.val * 65536 + b2.val * 256 + b3.val) :: toWords rest
  | _ => []

/-- Extend the 16 block words to the 64-entry message schedule. -/
def extendSchedule : List Nat → Nat → List Nat
  | ws, 0 => ws
  | ws, n + 1 =>
      extendSchedule
        (ws ++ [w32 (ssig1 (ws.getD (ws.length - 2) 0) + ws.getD (ws.length - 7) 0
          + ssig0 (ws.getD (ws.length - 15) 0) + ws.getD (ws.length - 16) 0)]) n

/-- The eight working variables of the compression function. -/
structure Sha8 where
  sa : Nat
  sb : Nat
  sc : Nat
  sd : Nat
  se : Nat
  sf : Nat
  sg : Nat
  sh : Nat

/-- One compression round. -/
def shaRound (st : Sha8) (kw : Nat × Nat) : Sha8 :=
  let t1 := w32 (st.sh + bsig1 st.se + chF st.se st.sf st.sg + kw.1 + kw.2)
  let t2 := w32 (bsig0 st.sa + majF st.sa st.sb st.sc)
  { sa := w32 (t1 + t2), sb := st.sa, sc := st.sb, sd := st.sc,
    se := w32 (st.sd + t1), sf := st.se, sg := st.sf, sh := st.sg }

/-- Compress one 64-byte block into the hash state. -/
def compressBlock (h0 : Sha8) (block : List Byte) : Sha8 :=
  let ws := extendSchedule (toWords block) 48
  let s := (K64.zip ws).foldl shaRound h0
  { sa := w32 (h0.sa + s.sa), sb := w32 (h0.sb + s.sb), sc := w32 (h0.sc + s.sc),
    sd := w32 (h0.sd + s.sd), se := w32 (h0.se + s.se), sf := w32 (h0.sf + s.sf),
    sg := w32 (h0.sg + s.sg), sh := w32 (h0.sh + s.sh) }

/-- Split a padded message into 64-byte blocks. -/
def chunks64 (l : List Byte) : List (List Byte) :=
  if h : l.isEmpty then [] else l.take 64 :: chunks64 (l.drop 64)
termination_by l.length
decreasing_by
  simp only [List.length_drop]
  cases l with
  | nil => simp at h
  | cons x xs => simp only [List.length_cons]; omega

/-- Big-endian bytes of one 32-bit word. -/
def be32bytes (n : Nat) : List Byte :=
  [byteOf (n / 16777216), byteOf (n / 65536), byteOf (n / 256), byteOf n]

/-- SHA-256 of a byte string. -/
def sha256 (msg : List Byte) : List Byte :=
  let init : Sha8 :=
    ⟨0x6a09e667, 0xbb67ae85, 0x3c6ef372, 0xa54ff53a,
     0x510e527f, 0x9b05688c, 0x1f83d9ab, 0x5be0cd19⟩
  let fin := (chunks64 (padMsg msg)).foldl compressBlock init
  be32bytes fin.sa ++ be32bytes fin.sb ++ be32bytes fin.sc ++ be32bytes fin.sd
    ++ be32bytes fin.se ++ be32bytes fin.sf ++ be32bytes fin.sg ++ be32bytes fin.sh

/-- XOR a byte with a mask. -/
def xorByte (m : Nat) (b : Byte) : Byte := byteOf (b.val ^^^ m)

/-- HMAC-SHA256 (hmac.new(key, msg, hashlib.sha256).digest()). -/
def hmacSha256 (key msg : List Byte) : List Byte :=
  let k0 := if key.length > 64 then sha256 key else key
  let kp := k0 ++ List.replicate (64 - k0.length) (byteOf 0)
  sha256 ((kp.map (xorByte 0x5c)) ++ sha256 ((kp.map (xorByte 0x36)) ++ msg))

/-! ## JSON values (the payloads json.dumps / json.loads handle here are flat
objects whose values are strings and integers) -/

/-- A JSON value as used by the token payloads. -/
inductive JVal where
  | jstr (s : List Char)
  | jint (n : Int)
deriving DecidableEq

/-- A JSON object: an insertion-ordered list of key/value pairs. -/
abbrev JObj := List (List Char × JVal)

/-- Lowercase hex digit. -/
def hexDig (n : Nat) : Char := "0123456789abcdef".toList.getD n '?'

/-- Four lowercase hex digits of a value below 0x10000. -/
def hex4 (n : Nat) : List Char :=
  [hexDig (n / 4096 % 16), hexDig (n / 256 % 16), hexDig (n / 16 % 16),
   hexDig (n % 16)]

/-- json.dumps escaping of one character with ensure_ascii (the default):
quote, backslash and the named control escapes, \uXXXX for other controls
and for everything beyond 0x7E, surrogate pairs beyond 0xFFFF. -/
def jsonEscapeChar (c : Char) : List Char :=
  if c = '"' then ['\\', '"']
  else if c = '\\' then ['\\', '\\']
  else if c = '\n' then ['\\', 'n']
  else if c = '\r' then ['\\', 'r']
  else if c = '\t' then ['\\', 't']
  else if c.toNat = 8 then ['\\', 'b']
  else if c.toNat = 12 then ['\\', 'f']
  else if c.toNat < 0x20 ∨ 0x7E < c.toNat then
    if c.toNat < 0x10000 then '\\' :: 'u' :: hex4 c.toNat
    else
      ('\\' :: 'u' :: hex4 (0xD800 + (c.toNat - 0x10000) / 1024))
        ++ ('\\' :: 'u' :: hex4 (0xDC00 + (c.toNat - 0x10000) % 1024))
  else [c]

/-- json.dumps of a string. -/
def dumpStr (s : List Char) : List Char :=
  '"' :: (s.map jsonEscapeChar).flatten ++ ['"']

/-- json.dumps of an integer. -/
def dumpInt (n : Int) : List Char :=
  if n < 0 then '-' :: natToDec n.natAbs else natToDec n.natAbs

/-- json.dumps of a value. -/
def dumpVal : JVal → List Char
  | .jstr s => dumpStr s
  | .jint n => dumpInt n

/-- One key/value entry with the ":" separator of separators=(",", ":"). -/
def dumpEntry (kv : List Char × JVal) : List Char :=
  dumpStr kv.1 ++ ':' :: dumpVal kv.2

/-- Join pieces with the "," separator of separators=(",", ":"). -/
def joinComma : List (List Char) → List Char
  | [] => []
  | [x] => x
  | x :: y :: rest => x ++ ',' :: joinComma (y :: rest)

/-- json.dumps(obj, separators=(",", ":")) for a flat object. -/
def dumpObj (o : JObj) : List Char :=
  '{' :: joinComma (o.map dumpEntry) ++ ['}']

/-- Hex digit value (both cases, as json.loads accepts). -/
def hexVal (c : Char) : Option Nat :=
  if 48 ≤ c.toNat ∧ c.toNat ≤ 57 then some (c.toNat - 48)
  else if 97 ≤ c.toNat ∧ c.toNat ≤ 102 then some (c.toNat - 87)
  else if 65 ≤ c.toNat ∧ c.toNat ≤ 70 then some (c.toNat - 55)
  else none

/-- Value of four hex digits. -/
def hexVal4 (c1 c2 c3 c4 : Char) : Option Nat := do
  let a ← hexVal c1
  let b ← hexVal c2
  let c ← hexVal c3
  let d ← hexVal c4
  some (a * 4096 + b * 256 + c * 16 + d)

/-- Short escape characters of json.loads. -/
def shortUnescape (e : Char) : Option Char :=
  if e = '"' then some '"'
  else if e = '\\' then some '\\'
  else if e = '/' then some '/'
  else if e = 'n' then some '\n'
  else if e = 'r' then some '\r'
  else if e = 't' then some '\t'
  else if e = 'b' then some (Char.ofNat 8)
  else if e = 'f' then some (Char.ofNat 12)
  else none

/-- One step of the json.loads string scanner, looking at one source
character (and, for escapes, its continuation): some (none, rest) is the
closing quote, some (some ch, rest) an accepted character, none an error.
Short escapes, \uXXXX with surrogate pairs; raw control characters are
rejected (strict mode). -/
def parseStringStep (c : Char) (rest : List Char) :
    Option (Option Char × List Char) :=
  if c = '"' then some (none, rest)
  else if c = '\\' then
    match rest with
    | [] => none
    | e :: rest2 =>
        if e = 'u' then
          match rest2 with
          | c1 :: c2 :: c3 :: c4 :: rest3 =>
              match hexVal4 c1 c2 c3 c4 with
              | none => none
              | some n =>
                  if 0xD800 ≤ n ∧ n < 0xDC00 then
                    match rest3 with
                    | e1 :: e2 :: d1 :: d2 :: d3 :: d4 :: rest4 =>
                        if e1 = '\\' ∧ e2 = 'u' then
                          match hexVal4 d1 d2 d3 d4 with
                          | none => none
                          | some m =>
                              if 0xDC00 ≤ m ∧ m < 0xE000 then
                                some (some (Char.ofNat (0x10000
                                  + (n - 0xD800) * 1024 + (m - 0xDC00))), rest4)
                              else none
                        else none
                    | _ => none
                  else if 0xDC00 ≤ n ∧ n < 0xE000 then none
                  else some (some (Char.ofNat n), rest3)
          | _ => none
        else
          match shortUnescape e with
          | some c2 => some (some c2, rest2)
          | none => none
  else if c.toNat < 0x20 then none
  else some (some c, rest)

/-- The json.loads string scanner loop; each step consumes at least one
character, so the input length is enough fuel. -/
def parseStringLoop : Nat → List Char → Option (List Char × List Char)
  | _, [] => none
  | 0, _ :: _ => none
  | fuel + 1, c :: rest =>
      match parseStringStep c rest with
      | none => none
      | some (none, rest2) => some ([], rest2)
      | some (some ch, rest2) =>
          (parseStringLoop fuel rest2).map fun p => (ch :: p.1, p.2)

/-- json.loads string body after the opening quote. -/
def parseStringBody (l : List Char) : Option (List Char × List Char) :=
  parseStringLoop l.length l

/-- Is the character a decimal digit? -/
def isDigitCh (c : Char) : Bool := decide (48 ≤ c.toNat) && decide (c.toNat ≤ 57)

/-- Digit value. -/
def digitVal (c : Char) : Nat := c.toNat - 48

/-- Consume a maximal run of digits into an accumulator. -/
def consumeDigits (acc : Nat) : List Char → Nat × List Char
  | [] => (acc, [])
  | c :: rest =>
      if isDigitCh c then consumeDigits (acc * 10 + digitVal c) rest
      else (acc, c :: rest)

/-- json.loads of an integer token (optional minus then digits), on the
compact integer grammar dumpInt emits. -/
def parseIntTok : List Char → Option (Int × List Char)
  | [] => none
  | c :: rest =>
      if c = '-' then
        match rest with
        | [] => none
        | c2 :: rest2 =>
            if isDigitCh c2 then
              some (-((consumeDigits (digitVal c2) rest2).1 : Int),
                (consumeDigits (digitVal c2) rest2).2)
            else none
      else if isDigitCh c then
        some (((consumeDigits (digitVal c) rest).1 : Int),
          (consumeDigits (digitVal c) rest).2)
      else none

/-- json.loads of an object member value (the payloads in scope carry only
strings and integers). -/
def parseVal : List Char → Option (JVal × List Char)
  | [] => none
  | c :: rest =>
      if c = '"' then (parseStringBody rest).map fun p => (JVal.jstr p.1, p.2)
      else (parseIntTok (c :: rest)).map fun p => (JVal.jint p.1, p.2)

/-- json.loads of the members of a non-empty object, after the opening
brace; the fuel bounds the number of members by the input length. -/
def parseEntries : Nat → List Char → Option (JObj × List Char)
  | 0, _ => none
  | fuel + 1, input =>
      match input with
      | '"' :: rest =>
          match parseStringBody rest with
          | none => none
          | some (k, r1) =>
              match r1 with
              | ':' :: r2 =>
                  match parseVal r2 with
                  | none => none
                  | some (v, r3) =>
                      match r3 with
                      | ',' :: r4 =>
                          (parseEntries fuel r4).map fun p =>
                            ((k, v) :: p.1, p.2)
                      | '}' :: r4 => some ([(k, v)], r4)
                      | _ => none
              | _ => none
      | _ => none

/-- json.loads of a whole compact object (the exact output format of
dumpObj: no whitespace), rejecting anything else. -/
def loadsObj (s : List Char) : Option JObj :=
  match s with
  | '{' :: rest =>
      if rest.head? = some '}' then
        if rest.tail.isEmpty then some [] else none
      else
        match parseEntries (rest.length + 1) rest with
        | some (o, []) => some o
        | _ => none
  | _ => none

/-- dict.get on the object a JSON text produces: with duplicate keys the
later member wins, as successive dict assignment does in json.loads. -/
def jget : JObj → List Char → Option JVal
  | [], _ => none
  | (k', v) :: rest, k =>
      match jget rest k with
      | some r => some r
      | none => if k' = k then some v else none

/-! ## The token authenticator (auth/jwt_hs256.py) -/

/-- The verifier/issuer configuration: shared secret and optional
audience/issuer expectations (JwtHS256.__init__). -/
structure JwtHS256 where
  secret : List Char
  audience : Option (List Char) := none
  issuer : Option (List Char) := none

/-- The distinct failure exits of JwtHS256.verify.  All the source's own
raises are ValueError with a fixed message per site; decodeError covers the
stdlib exceptions out of base64/UTF-8/JSON decoding (and a non-object JSON
top level, where Python would fail at .get), asciiError the ascii encode of
the signing input, compareTypeError the TypeError hmac.compare_digest raises
on non-ASCII text. -/
inductive VerifyError where
  | formatError
  | decodeError
  | asciiError
  | unsupportedAlg
  | compareTypeError
  | signatureError
  | expiredError
  | notYetValidError
  | audienceMismatch
  | issuerMismatch
deriving DecidableEq

/-- Python str.split("."). -/
def splitDot : List Char → List (List Char)
  | [] => [[]]
  | c :: rest =>
      if c = '.' then [] :: splitDot rest
      else
        match splitDot rest with
        | [] => [[c]]
        | p :: ps => (c :: p) :: ps

namespace JwtHS256

/-- JwtHS256._b64url_encode. -/
def _b64url_encode (raw : List Byte) : List Char := b64urlEncodeBytes raw

/-- JwtHS256._b64url_decode. -/
def _b64url_decode (data : List Char) : Option (List Byte) :=
  b64urlDecodeChars data

/-- JwtHS256._sign: HMAC-SHA256 of the signing input under the utf-8 bytes
of the secret, base64url-encoded. -/
def _sign (j : JwtHS256) (signing_input : List Byte) : List Char :=
  _b64url_encode (hmacSha256 (utf8Encode j.secret) signing_input)

/-- The fixed header generate_demo_token builds. -/
def demoHeader : JObj :=
  [("alg".toList, .jstr "HS256".toList), ("typ".toList, .jstr "JWT".toList)]

/-- The payload generate_demo_token builds: fixed demo subject and role,
iat = now, exp = now + valid_seconds, then aud / iss only when the
configured value is truthy (Python `if self.audience:`). -/
def demoPayload (j : JwtHS256) (now valid_seconds : Int) : JObj :=
  [("sub".toList, .jstr "demo-user".toList),
   ("role".toList, .jstr "demo".toList),
   ("iat".toList, .jint now),
   ("exp".toList, .jint (now + valid_seconds))]
  ++ (if truthy j.audience then [("aud".toList, .jstr (j.audience.getD []))] else [])
  ++ (if truthy j.issuer then [("iss".toList, .jstr (j.issuer.getD []))] else [])

/-- A correctly signed three-segment token over given header and payload
objects: the encode-and-sign tail of generate_demo_token. -/
def signedTokenOf (j : JwtHS256) (header payload : JObj) : List Char :=
  let header_b64 := _b64url_encode (utf8Encode (dumpObj header))
  let payload_b64 := _b64url_encode (utf8Encode (dumpObj payload))
  let sig_b64 := _sign j (asciiBytes (header_b64 ++ '.' :: payload_b64))
  header_b64 ++ '.' :: payload_b64 ++ '.' :: sig_b64

/-- JwtHS256.generate_demo_token, with `now` (int(time.time())) passed
explicitly. -/
def generate_demo_token (j : JwtHS256) (now : Int)
    (valid_seconds : Int := 24 * 3600) : List Char :=
  signedTokenOf j demoHeader (demoPayload j now valid_seconds)

/-- The signing input of a token over the given header and payload:
f"\x7bheader_b64\x7d.\x7bpayload_b64\x7d".encode("ascii"). -/
def signingInput (header payload : JObj) : List Byte :=
  asciiBytes (b64urlEncodeBytes (utf8Encode (dumpObj header))
    ++ '.' :: b64urlEncodeBytes (utf8Encode (dumpObj payload)))

/-- The three-segment token whose first two segments encode the given
header and payload and whose third segment is an arbitrary string: the
shape of a correctly issued token after its signature segment has been
replaced. -/
def tokenWithSig (header payload : JObj) (s2 : List Char) :
    List Char :=
  b64urlEncodeBytes (utf8Encode (dumpObj header))
    ++ '.' :: (b64urlEncodeBytes (utf8Encode (dumpObj payload)) ++ '.' :: s2)

/-- hmac.compare_digest on str arguments: a constant-time equality, raising
TypeError when either side is not ASCII. -/
def compare_digest (a b : List Char) : Except VerifyError Bool :=
  if asciiOK a && asciiOK b then .ok (a == b) else .error .compareTypeError

/-- The claim-checking tail of verify: expiry, not-before, audience,
issuer, in the source's order.  exp/nbf are checked only when present as
ints (isinstance(exp, int)); aud/iss only when the configured expectation
is not None. -/
def checkTail (j : JwtHS256) (payload : JObj) (leeway_seconds now : Int) :
    Except VerifyError JObj :=
  let expBad := match jget payload "exp".toList with
    | some (.jint e) => decide (now > e + leeway_seconds)
    | _ => false
  if expBad then .error .expiredError
  else
    let nbfBad := match jget payload "nbf".toList with
      | some (.jint b) => decide (now < b - leeway_seconds)
      | _ => false
    if nbfBad then .error .notYetValidError
    else
      let audBad := match j.audience with
        | none => false
        | some a => !(jget payload "aud".toList == some (JVal.jstr a))
      if audBad then .error .audienceMismatch
      else
        let issBad := match j.issuer with
          | none => false
          | some i => !(jget payload "iss".toList == some (JVal.jstr i))
        if issBad then .error .issuerMismatch
        else .ok payload

/-- JwtHS256.verify, with `now` passed explicitly: structural check to
exactly 3 segments, decode of header and payload, ascii encode of the
signing input, algorithm check, constant-time signature comparison, then
the claim checks. -/
def verify (j : JwtHS256) (token : List Char) (leeway_seconds : Int)
    (now : Int) : Except VerifyError JObj :=
  match splitDot token with
  | [p0, p1, p2] =>
      match _b64url_decode p0 with
      | none => .error .decodeError
      | some hbytes =>
      match utf8Decode hbytes with
      | none => .error .decodeError
      | some htext =>
      match loadsObj htext with
      | none => .error .decodeError
      | some header =>
      match _b64url_decode p1 with
      | none => .error .decodeError
      | some pbytes =>
      match utf8Decode pbytes with
      | none => .error .decodeError
      | some ptext =>
      match loadsObj ptext with
      | none => .error .decodeError
      | some payload =>
      if asciiOK (p0 ++ '.' :: p1) then
        if jget header "alg".toList == some (.jstr "HS256".toList) then
          match compare_digest (_sign j (asciiBytes (p0 ++ '.' :: p1))) p2 with
          | .error e => .error e
          | .ok same =>
              if same then checkTail j payload leeway_seconds now
              else .error .signatureError
        else .error .unsupportedAlg
      else .error .asciiError
  | _ => .error .formatError

end JwtHS256

/-! ## The request gate (auth/middleware.py, JwtAuthMiddleware) -/

/-- The parts of an ASGI scope the middleware reads: scope["type"],
scope["path"] and the header list (decoded to text). -/
structure Scope where
  stype : List Char
  path : List Char
  headers : List (List Char × List Char)
deriving DecidableEq

/-- What the middleware does with a request: pass it to the wrapped app or
answer itself with a status and a body. -/
inductive GateOutcome where
  | forward
  | respond (status : Nat) (body : List Char)
deriving DecidableEq

/-- The body sent for a missing bearer token. -/
def missingBody : List Char :=
  "\x7b\"error\":\"missing bearer token\"\x7d".toList

/-- The body sent when verify raises. -/
def invalidBody : List Char :=
  "\x7b\"error\":\"invalid token\"\x7d".toList

/-- dict(...) built from a pair list: on duplicate keys the last wins, as in
the middleware's header dict comprehension. -/
def dictGetLast : List (List Char × List Char) → List Char → Option (List Char)
  | [], _ => none
  | (k', v) :: rest, k =>
      match dictGetLast rest k with
      | some r => some r
      | none => if k' = k then some v else none

/-- auth.split(" ", 1)[1]: everything after the first space. -/
def dropThroughFirstSpace : List Char → List Char
  | [] => []
  | c :: rest => if c = ' ' then rest else dropThroughFirstSpace rest

/-- The whitespace set of str.strip() restricted to ASCII. -/
def isPySpace (c : Char) : Bool :=
  c = ' ' || c = '\t' || c = '\n' || c = '\x0d' || c = '\x0b' || c = '\x0c'

/-- Python str.strip(). -/
def stripStr (s : List Char) : List Char :=
  ((s.dropWhile isPySpace).reverse.dropWhile isPySpace).reverse

/-- headers.get("authorization", "") over the lowered header dict. -/
def authOf (scope : Scope) : List Char :=
  (dictGetLast (scope.headers.map fun kv => (lowerAscii kv.1, kv.2))
    ("authorization".toList)).getD []

/-- The token the middleware hands to verify. -/
def tokenOf (scope : Scope) : List Char :=
  stripStr (dropThroughFirstSpace (authOf scope))

/-- JwtAuthMiddleware.__call__, with the wall clock of the inner verify
passed explicitly.  Non-http scopes, required=False and allowlisted paths
forward to the wrapped app; a header whose lowercase form does not start
with "bearer " yields 401 with the missing-token body; a token rejected by
verify (leeway 30) yields 401 with the invalid-token body. -/
def JwtAuthMiddleware.call (jwt : JwtHS256) (required : Bool)
    (allowlist_paths : List (List Char)) (scope : Scope) (now : Int) :
    GateOutcome :=
  if scope.stype ≠ "http".toList then .forward
  else if required = false then .forward
  else if scope.path ∈ allowlist_paths then .forward
  else if startsWithL ("bearer ".toList) (lowerAscii (authOf scope)) = false
    then .respond 401 missingBody
  else
    match JwtHS256.verify jwt (tokenOf scope) 30 now with
    | .error _ => .respond 401 invalidBody
    | .ok _ => .forward

/-! ## Order lemmas for the sort comparison -/

theorem strLt_trichotomy (a b : List Char) :
    strLt a b = true ∨ strLt b a = true ∨ a = b := by
  induction a generalizing b with
  | nil => cases b <;> simp [strLt]
  | cons x xs ih =>
      cases b with
      | nil => simp [strLt]
      | cons y ys =>
          rcases lt_trichotomy x y with h | h | h
          · left; simp [strLt, h]
          · subst h
            rcases ih ys with h' | h' | h'
            · left; simp [strLt, h']
            · right; left; simp [strLt, h']
            · right; right; simp [h']
          · right; left; simp [strLt, h]

theorem strLt_irrefl (a : List Char) : strLt a a = false := by
  induction a with
  | nil => simp [strLt]
  | cons x xs ih => simp [strLt, ih]

theorem strLt_trans {a b c : List Char}
    (h1 : strLt a b = true) (h2 : strLt b c = true) : strLt a c = true := by
  induction a generalizing b c with
  | nil =>
      cases b with
      | nil => simp [strLt] at h1
      | cons y ys =>
          cases c with
          | nil => simp [strLt] at h2
          | cons z zs => simp [strLt]
  | cons x xs ih =>
      cases b with
      | nil => simp [strLt] at h1
      | cons y ys =>
          cases c with
          | nil => simp [strLt] at h2
          | cons z zs =>
              simp only [strLt] at h1 h2 ⊢
              rcases lt_trichotomy x y with hxy | hxy | hxy
              · rcases lt_trichotomy y z with hyz | hyz | hyz
                · simp [lt_trans hxy hyz]
                · subst hyz; simp [hxy]
                · rw [if_neg (not_lt_of_gt hyz), if_neg (ne_of_gt hyz)] at h2
                  simp at h2
              · subst hxy
                rw [if_neg (lt_irrefl x), if_pos rfl] at h1
                rcases lt_trichotomy x z with hxz | hxz | hxz
                · simp [hxz]
                · subst hxz
                  rw [if_neg (lt_irrefl x), if_pos rfl] at h2 ⊢
                  exact ih h1 h2
                · rw [if_neg (not_lt_of_gt hxz), if_neg (ne_of_gt hxz)] at h2
                  simp at h2
              · rw [if_neg (not_lt_of_gt hxy), if_neg (ne_of_gt hxy)] at h1
                simp at h1

theorem strLe_refl (a : List Char) : strLe a a = true := by simp [strLe]

theorem strLe_trans {a b c : List Char}
    (h1 : strLe a b = true) (h2 : strLe b c = true) : strLe a c = true := by
  simp only [strLe, Bool.or_eq_true, beq_iff_eq] at h1 h2 ⊢
  rcases h1 with h1 | h1
  · rcases h2 with h2 | h2
    · exact Or.inl (strLt_trans h1 h2)
    · subst h2; exact Or.inl h1
  · subst h1; exact h2

theorem strLe_total (a b : List Char) : strLe a b = true ∨ strLe b a = true := by
  simp only [strLe, Bool.or_eq_true, beq_iff_eq]
  rcases strLt_trichotomy a b with h | h | h
  · exact Or.inl (Or.inl h)
  · exact Or.inr (Or.inl h)
  · exact Or.inl (Or.inr h)

theorem slotLe_isTotal : IsTotal AppointmentSlot slotLe := by
  constructor
  intro a b
  simp only [slotLe, slotLeB, Bool.or_eq_true, Bool.and_eq_true, beq_iff_eq]
  rcases strLt_trichotomy a.date b.date with h | h | h
  · exact Or.inl (Or.inl h)
  · exact Or.inr (Or.inl h)
  · rcases strLe_total a.start_time b.start_time with h' | h'
    · exact Or.inl (Or.inr ⟨h, h'⟩)
    · exact Or.inr (Or.inr ⟨h.symm, h'⟩)

theorem slotLe_isTrans : IsTrans AppointmentSlot slotLe := by
  constructor
  intro a b c h1 h2
  simp only [slotLe, slotLeB, Bool.or_eq_true, Bool.and_eq_true,
    beq_iff_eq] at h1 h2 ⊢
  rcases h1 with h1 | ⟨hd1, ht1⟩
  · rcases h2 with h2 | ⟨hd2, _⟩
    · exact Or.inl (strLt_trans h1 h2)
    · exact Or.inl (hd2 ▸ h1)
  · rcases h2 with h2 | ⟨hd2, ht2⟩
    · exact Or.inl (hd1 ▸ h2)
    · exact Or.inr ⟨hd1.trans hd2, strLe_trans ht1 ht2⟩

/-! ## Lemmas about the claim operation -/

theorem countP_claimHit_le_one (sid : Nat) {slots : List SlotRow}
    (h : (slots.map (·.slot_id)).Nodup) :
    slots.countP (claimHit sid) ≤ 1 := by
  induction slots with
  | nil => simp
  | cons r rows ih =>
      simp only [List.map_cons, List.nodup_cons, List.mem_map] at h
      rw [List.countP_cons]
      by_cases hr : claimHit sid r = true
      · have hzero : rows.countP (claimHit sid) = 0 := by
          rw [List.countP_eq_zero]
          intro r' hr'
          simp only [claimHit, Bool.and_eq_true, beq_iff_eq] at hr ⊢
          intro hcon
          exact h.1 ⟨r', hr', hcon.1.trans hr.1.symm⟩
        simp [hr, hzero]
      · simp only [hr]
        simpa using ih h.2

theorem countP_claimHit_pos {st : ClinicState} {sid : Nat} :
    0 < st.slots.countP (claimHit sid) ↔ bookable st sid := by
  rw [List.countP_pos_iff]
  unfold bookable claimHit
  simp [Bool.and_eq_true, beq_iff_eq]

theorem countP_claimHit_eq_one {st : ClinicState} {sid : Nat}
    (h : (st.slots.map (·.slot_id)).Nodup) :
    st.slots.countP (claimHit sid) = 1 ↔ bookable st sid := by
  constructor
  · intro h1
    exact countP_claimHit_pos.mp (by omega)
  · intro hb
    have := countP_claimHit_le_one sid h
    have := countP_claimHit_pos.mpr hb
    omega

theorem add_appointment_state (st : ClinicState) (uid sid : Nat) :
    (ClinicDB.add_appointment st uid sid).1 = claimedState st uid sid := by
  simp only [ClinicDB.add_appointment, claimedState]
  split <;> rfl

theorem repo_add_state (st : ClinicState) (uid sid : Nat) :
    (SQLiteClinicRepository.add_appointment st uid sid).1 =
      claimedState st uid sid := by
  simp only [SQLiteClinicRepository.add_appointment]
  rcases h : ClinicDB.add_appointment st uid sid with ⟨st', r⟩
  have hst : st' = claimedState st uid sid := by
    have := add_appointment_state st uid sid
    rw [h] at this
    exact this
  cases r with
  | ok n => simpa using hst
  | error e => cases e with | valueError m => simpa using hst

theorem add_appointment_success {st : ClinicState} {sid : Nat} (uid : Nat)
    (hnd : (st.slots.map (·.slot_id)).Nodup) (hb : bookable st sid) :
    ClinicDB.add_appointment st uid sid =
      (claimedState st uid sid, .ok sid) := by
  have hc : st.slots.countP (claimHit sid) = 1 :=
    (countP_claimHit_eq_one hnd).mpr hb
  simp only [ClinicDB.add_appointment, claimedState, hc]
  rfl

theorem add_appointment_fail {st : ClinicState} {sid : Nat} (uid : Nat)
    (hnb : ¬ bookable st sid) :
    ClinicDB.add_appointment st uid sid =
      (st, .error (.valueError (ClinicDB.slotUnavailableMsg sid))) := by
  have hc : st.slots.countP (claimHit sid) = 0 := by
    rw [List.countP_eq_zero]
    intro r hr hhit
    exact hnb ⟨r, hr, by
      simpa [claimHit, Bool.and_eq_true, beq_iff_eq] using hhit⟩
  have hmap : (st.slots.map fun r =>
      if claimHit sid r then { r with user_id := some uid } else r) = st.slots := by
    have : ∀ r ∈ st.slots, (if claimHit sid r then { r with user_id := some uid } else r) = r := by
      intro r hr
      have : ¬ claimHit sid r = true := by
        intro hhit
        exact hnb ⟨r, hr, by
          simpa [claimHit, Bool.and_eq_true, beq_iff_eq] using hhit⟩
      simp [this]
    calc (st.slots.map fun r => if claimHit sid r then { r with user_id := some uid } else r)
        = st.slots.map id := List.map_congr_left fun r hr => by simpa using this r hr
      _ = st.slots := List.map_id _
  simp only [ClinicDB.add_appointment, hc, hmap]
  rfl

theorem repo_add_success {st : ClinicState} {sid : Nat} (uid : Nat)
    (hnd : (st.slots.map (·.slot_id)).Nodup) (hb : bookable st sid) :
    SQLiteClinicRepository.add_appointment st uid sid =
      (claimedState st uid sid, .ok sid) := by
  simp only [SQLiteClinicRepository.add_appointment,
    add_appointment_success uid hnd hb]

theorem repo_add_fail {st : ClinicState} {sid : Nat} (uid : Nat)
    (hnb : ¬ bookable st sid) :
    SQLiteClinicRepository.add_appointment st uid sid =
      (st, .error (.conflict (ClinicDB.slotUnavailableMsg sid))) := by
  simp only [SQLiteClinicRepository.add_appointment,
    add_appointment_fail uid hnb]

theorem claimedState_occupant {st : ClinicState} {sid : Nat} {uid : Nat}
    (hnd : (st.slots.map (·.slot_id)).Nodup) (hb : bookable st sid) :
    ∀ r ∈ (claimedState st uid sid).slots,
      r.slot_id = sid → r.user_id = some uid := by
  intro r' hr' hid
  simp only [claimedState, List.mem_map] at hr'
  obtain ⟨r, hr, hmap⟩ := hr'
  by_cases hhit : claimHit sid r = true
  · rw [if_pos hhit] at hmap
    subst hmap
    rfl
  · rw [if_neg hhit] at hmap
    subst hmap
    exfalso
    obtain ⟨r0, hr0, hid0, hu0⟩ := hb
    have hne : r ≠ r0 := by
      intro he
      subst he
      exact hhit (by simp [claimHit, hid, hu0])
    have hru : r.user_id ≠ none := by
      intro hu
      exact hhit (by simp [claimHit, hid, hu])
    -- two distinct rows would share slot_id sid, contradicting Nodup
    have hinj := List.inj_on_of_nodup_map hnd
    exact hne (hinj hr hr0 (by simp [hid, hid0]))

theorem noFree_after_claim (st : ClinicState) (op : Nat × Nat) :
    noFree (claimStep st op).1 op.2 := by
  intro r' hr' hid
  simp only [claimStep, repo_add_state, claimedState, List.mem_map] at hr'
  obtain ⟨r, hr, hmap⟩ := hr'
  by_cases hhit : claimHit op.2 r = true
  · rw [if_pos hhit] at hmap
    subst hmap
    simp
  · rw [if_neg hhit] at hmap
    subst hmap
    intro hu
    exact hhit (by simp [claimHit, hid, hu])

theorem noFree_mono {st : ClinicState} {sid : Nat} (h : noFree st sid)
    (op : Nat × Nat) : noFree (claimStep st op).1 sid := by
  intro r' hr' hid
  simp only [claimStep, repo_add_state, claimedState, List.mem_map] at hr'
  obtain ⟨r, hr, hmap⟩ := hr'
  by_cases hhit : claimHit op.2 r = true
  · rw [if_pos hhit] at hmap
    subst hmap
    simp
  · rw [if_neg hhit] at hmap
    subst hmap
    exact h r hr hid

theorem claimStep_fail_of_noFree {st : ClinicState} {op : Nat × Nat}
    (h : noFree st op.2) :
    (claimStep st op).2 =
      .error (.conflict (ClinicDB.slotUnavailableMsg op.2)) := by
  have hnb : ¬ bookable st op.2 := by
    rintro ⟨r, hr, hid, hu⟩
    exact h r hr hid hu
  simp [claimStep, repo_add_fail op.1 hnb]

theorem successesFor_zero_of_noFree {sid : Nat} :
    ∀ (ops : List (Nat × Nat)) (st : ClinicState), noFree st sid →
      successesFor sid (runClaims st ops).2 = 0 := by
  intro ops
  induction ops with
  | nil => intro st _; simp [runClaims, successesFor]
  | cons op ops ih =>
      intro st h
      simp only [runClaims, successesFor, List.countP_cons]
      rw [show (runClaims (claimStep st op).1 ops).2.countP
            (fun x => x.1.2 == sid && (x.2.toOption).isSome) =
          successesFor sid (runClaims (claimStep st op).1 ops).2 from rfl]
      rw [ih (claimStep st op).1 (noFree_mono h op)]
      by_cases hsid : op.2 = sid
      · have hfail := @claimStep_fail_of_noFree _ op (hsid ▸ h)
        rw [hfail]
        simp [Except.toOption]
      · simp [hsid]

theorem successesFor_le_one (sid : Nat) :
    ∀ (ops : List (Nat × Nat)) (st : ClinicState),
      successesFor sid (runClaims st ops).2 ≤ 1 := by
  intro ops
  induction ops with
  | nil => intro st; simp [runClaims, successesFor]
  | cons op ops ih =>
      intro st
      simp only [runClaims, successesFor, List.countP_cons]
      rw [show (runClaims (claimStep st op).1 ops).2.countP
            (fun x => x.1.2 == sid && (x.2.toOption).isSome) =
          successesFor sid (runClaims (claimStep st op).1 ops).2 from rfl]
      by_cases hsid : op.2 = sid
      · by_cases hok : ((claimStep st op).2.toOption).isSome = true
        · have hzero :
              successesFor sid (runClaims (claimStep st op).1 ops).2 = 0 :=
            successesFor_zero_of_noFree ops _
              (hsid ▸ noFree_after_claim st op)
          rw [hzero]
          simp [hsid, hok]
        · have := ih (claimStep st op).1
          simp [hok]
          omega
      · have := ih (claimStep st op).1
        simp [hsid]
        omega

/-! ## Booking claims -/

/-- C1: ClaimSlot (add_appointment) succeeds and returns the slot id exactly
when the slot exists with an unset occupant, in which case the occupant
becomes the given user; when the slot is missing or occupied it fails with
ConflictError carrying a message that depends only on the slot id (the two
causes are observably indistinguishable), and the state is unchanged on
failure. -/
theorem claim_C1 (st : ClinicState) (uid sid : Nat)
    (hnd : (st.slots.map (·.slot_id)).Nodup) :
    ((∃ n, (SQLiteClinicRepository.add_appointment st uid sid).2 = .ok n) ↔
        bookable st sid)
    ∧ (bookable st sid →
        (SQLiteClinicRepository.add_appointment st uid sid).2 = .ok sid
        ∧ ∀ r ∈ (SQLiteClinicRepository.add_appointment st uid sid).1.slots,
            r.slot_id = sid → r.user_id = some uid)
    ∧ (¬ bookable st sid →
        SQLiteClinicRepository.add_appointment st uid sid =
          (st, .error (.conflict (ClinicDB.slotUnavailableMsg sid)))) := by
  refine ⟨⟨?_, ?_⟩, ?_, ?_⟩
  · rintro ⟨n, hn⟩
    by_contra hnb
    rw [repo_add_fail uid hnb] at hn
    simp at hn
  · intro hb
    exact ⟨sid, by rw [repo_add_success uid hnd hb]⟩
  · intro hb
    refine ⟨by rw [repo_add_success uid hnd hb], ?_⟩
    intro r hr hid
    rw [repo_add_state] at hr
    exact claimedState_occupant hnd hb r hr hid
  · intro hnb
    exact repo_add_fail uid hnb

theorem claim_C1_witness :
    ((st0.slots.map (·.slot_id)).Nodup ∧ bookable st0 1)
    ∧ (SQLiteClinicRepository.add_appointment st0 7 1).2 = .ok 1 :=
  ⟨⟨by decide, by decide⟩, ((claim_C1 st0 7 1 (by decide)).2.1 (by decide)).1⟩

/-- C2: each claim attempt is one atomic conditional update, so over any
interleaving (sequence) of claim attempts at most one attempt on a given
slot succeeds; and when two claims race on an existing unoccupied slot,
the first of the interleaving succeeds and the other observes ConflictError,
in both orders. -/
theorem claim_C2 (st : ClinicState) (sid u1 u2 : Nat)
    (hnd : (st.slots.map (·.slot_id)).Nodup) (hb : bookable st sid) :
    (∀ ops : List (Nat × Nat), successesFor sid (runClaims st ops).2 ≤ 1)
    ∧ (runClaims st [(u1, sid), (u2, sid)]).2 =
        [((u1, sid), .ok sid),
         ((u2, sid), .error (.conflict (ClinicDB.slotUnavailableMsg sid)))]
    ∧ (runClaims st [(u2, sid), (u1, sid)]).2 =
        [((u2, sid), .ok sid),
         ((u1, sid), .error (.conflict (ClinicDB.slotUnavailableMsg sid)))] := by
  refine ⟨fun ops => successesFor_le_one sid ops st, ?_, ?_⟩
  · have h1 : claimStep st (u1, sid) = (claimedState st u1 sid, .ok sid) := by
      simpa [claimStep] using repo_add_success u1 hnd hb
    have hnf : noFree (claimedState st u1 sid) sid := by
      have := noFree_after_claim st (u1, sid)
      rwa [h1] at this
    have h2 := @claimStep_fail_of_noFree _ (u2, sid) hnf
    simp [runClaims, h1, h2]
  · have h1 : claimStep st (u2, sid) = (claimedState st u2 sid, .ok sid) := by
      simpa [claimStep] using repo_add_success u2 hnd hb
    have hnf : noFree (claimedState st u2 sid) sid := by
      have := noFree_after_claim st (u2, sid)
      rwa [h1] at this
    have h2 := @claimStep_fail_of_noFree _ (u1, sid) hnf
    simp [runClaims, h1, h2]

theorem claim_C2_witness :
    ((st0.slots.map (·.slot_id)).Nodup ∧ bookable st0 1)
    ∧ (runClaims st0 [(7, 1), (8, 1)]).2 =
        [((7, 1), .ok 1),
         ((8, 1), .error (.conflict (ClinicDB.slotUnavailableMsg 1)))] :=
  ⟨⟨by decide, by decide⟩, (claim_C2 st0 1 7 8 (by decide) (by decide)).2.1⟩

/-- C3: ReleaseSlot (remove_appointment) never raises, unconditionally
clears the occupant of every row with the given slot id, is idempotent,
and is a no-op on a nonexistent slot. -/
theorem claim_C3 (st : ClinicState) (sid : Nat) :
    (SQLiteClinicRepository.remove_appointment st sid).2 = .ok ()
    ∧ (∀ r ∈ (SQLiteClinicRepository.remove_appointment st sid).1.slots,
        r.slot_id = sid → r.user_id = none)
    ∧ SQLiteClinicRepository.remove_appointment
        (SQLiteClinicRepository.remove_appointment st sid).1 sid =
      SQLiteClinicRepository.remove_appointment st sid
    ∧ ((∀ r ∈ st.slots, r.slot_id ≠ sid) →
        (SQLiteClinicRepository.remove_appointment st sid).1 = st) := by
  refine ⟨rfl, ?_, ?_, ?_⟩
  · intro r' hr' hid
    simp only [SQLiteClinicRepository.remove_appointment,
      ClinicDB.remove_appointment, List.mem_map] at hr'
    obtain ⟨r, _, hmap⟩ := hr'
    by_cases hb : (r.slot_id == sid) = true
    · rw [if_pos hb] at hmap
      subst hmap
      rfl
    · rw [if_neg hb] at hmap
      subst hmap
      exact absurd (by simp [hid]) hb
  · simp only [SQLiteClinicRepository.remove_appointment,
      ClinicDB.remove_appointment]
    refine Prod.ext ?_ rfl
    simp only [List.map_map]
    have hf : ((fun r : SlotRow =>
          if r.slot_id == sid then { r with user_id := none } else r) ∘
        (fun r : SlotRow =>
          if r.slot_id == sid then { r with user_id := none } else r)) =
        (fun r : SlotRow =>
          if r.slot_id == sid then { r with user_id := none } else r) := by
      funext r
      by_cases hb : (r.slot_id == sid) = true
      · simp [Function.comp, hb]
      · simp [Function.comp, hb]
    rw [hf]
  · intro h
    simp only [SQLiteClinicRepository.remove_appointment,
      ClinicDB.remove_appointment]
    have hmap : (st.slots.map fun r =>
        if r.slot_id == sid then { r with user_id := none } else r) = st.slots := by
      calc (st.slots.map fun r =>
            if r.slot_id == sid then { r with user_id := none } else r)
          = st.slots.map id := List.map_congr_left fun r hr => by
              simp [h r hr]
        _ = st.slots := List.map_id _
    rw [hmap]

theorem claim_C3_witness :
    (∀ r ∈ st0.slots, r.slot_id ≠ 5) ∧
    (SQLiteClinicRepository.remove_appointment st0 5).1 = st0 :=
  ⟨by decide, (claim_C3 st0 5).2.2.2 (by decide)⟩

/-- C5: in the two-step schedule_appointment workflow, if the claim step
fails the bills ledger is unchanged and the error propagates; the bill is
recorded (appended, referencing the booked slot) only after a successful
claim. -/
theorem claim_C5 (st : ClinicState) (uid payid sid : Nat) (amount : Int)
    (now : List Char) :
    (∀ e, (SQLiteClinicRepository.add_appointment st uid sid).2 = .error e →
      (ClinicService.schedule_appointment st uid payid sid amount now).1.bills
        = st.bills
      ∧ (ClinicService.schedule_appointment st uid payid sid amount now).2
        = .error e)
    ∧ (∀ n, (SQLiteClinicRepository.add_appointment st uid sid).2 = .ok n →
      (ClinicService.schedule_appointment st uid payid sid amount now).2
        = .ok n
      ∧ (ClinicService.schedule_appointment st uid payid sid amount now).1.bills
        = (SQLiteClinicRepository.add_appointment st uid sid).1.bills ++
            [{ bill_id :=
                 (SQLiteClinicRepository.add_appointment st uid sid).1.nextBillId,
               pay_id := payid, slot_id := some n, date := now,
               amount := amount }]) := by
  rcases hadd : SQLiteClinicRepository.add_appointment st uid sid with ⟨st', r⟩
  have hbills : st'.bills = st.bills := by
    have := repo_add_state st uid sid
    rw [hadd] at this
    simp only at this
    rw [this]
    rfl
  cases r with
  | error e =>
      constructor
      · intro e' he'
        simp only at he'
        injection he' with he2
        subst he2
        constructor
        · simp only [ClinicService.schedule_appointment, hadd]
          exact hbills
        · simp only [ClinicService.schedule_appointment, hadd]
      · intro n hn
        simp at hn
  | ok n =>
      constructor
      · intro e' he'
        simp at he'
      · intro n' hn'
        simp only at hn'
        injection hn' with hn2
        subst hn2
        constructor
        · simp only [ClinicService.schedule_appointment, hadd]
        · simp only [ClinicService.schedule_appointment, hadd,
            SQLiteClinicRepository.bill_user, ClinicDB.bill_user]

/-- C4: SearchAvailableSlots returns at most 10 rows, sorted ascending by
(date, start time); every returned row stems from a slot whose occupant is
unset, matches the requested specialty exactly, and lies in the requested
inclusive date range whenever a range endpoint was given (non-empty). -/
theorem claim_C4 (st : ClinicState) (today q : List Char)
    (dn sd ed : Option (List Char)) :
    (ClinicDB.search_available_appointments st today q dn sd ed).length ≤ 10
    ∧ List.Sorted slotLe
        (ClinicDB.search_available_appointments st today q dn sd ed)
    ∧ ∀ x ∈ ClinicDB.search_available_appointments st today q dn sd ed,
        x.specialty = q
        ∧ (∃ s ∈ st.slots, s.slot_id = x.slot_id ∧ s.user_id = none
             ∧ s.date = x.date ∧ s.start_time = x.start_time)
        ∧ (∀ v, sd = some v → v ≠ [] → strLe v x.date = true)
        ∧ (∀ v, ed = some v → v ≠ [] → strLe x.date v = true) := by
  haveI := slotLe_isTotal
  haveI := slotLe_isTrans
  simp only [ClinicDB.search_available_appointments]
  refine ⟨?_, ?_, ?_⟩
  · rw [List.length_take]
    exact min_le_left _ _
  · exact List.Pairwise.sublist (List.take_sublist _ _)
      (List.sorted_insertionSort slotLe _)
  · intro x hx
    have hx1 : x ∈ List.insertionSort slotLe _ := List.take_subset _ _ hx
    have hx2 := (List.perm_insertionSort slotLe _).subset hx1
    rw [List.mem_filterMap] at hx2
    obtain ⟨s, hs, hf⟩ := hx2
    rcases hfind : st.doctors.find? (fun d => d.dr_id == s.dr_id) with _ | d
    · rw [hfind] at hf
      simp at hf
    · rw [hfind] at hf
      dsimp only at hf
      by_cases hp : searchPred today q dn sd ed s d = true
      · rw [if_pos hp] at hf
        simp only [Option.some.injEq] at hf
        subst hf
        simp only [searchPred, Bool.and_eq_true, beq_iff_eq] at hp
        obtain ⟨⟨⟨⟨⟨hspec, huser⟩, _⟩, _⟩, hsd⟩, hed⟩ := hp
        refine ⟨hspec, ⟨s, hs, rfl, huser, rfl, rfl⟩, ?_, ?_⟩
        · intro v hv hne
          subst hv
          have ht : truthy (some v) = true := by
            cases v with
            | nil => exact absurd rfl hne
            | cons c cs => rfl
          rw [if_pos ht] at hsd
          simpa using hsd
        · intro v hv hne
          subst hv
          have ht : truthy (some v) = true := by
            cases v with
            | nil => exact absurd rfl hne
            | cons c cs => rfl
          rw [if_pos ht] at hed
          simpa using hed
      · rw [if_neg hp] at hf
        simp at hf

theorem claim_C4_witness :
    (ClinicDB.search_available_appointments st0 "2026-01-01".toList
        "family".toList none none none).length ≤ 10 :=
  (claim_C4 st0 "2026-01-01".toList "family".toList none none none).1

theorem claim_C5_witness :
    (SQLiteClinicRepository.add_appointment st0 7 1).2 = .ok 1 ∧
    (ClinicService.schedule_appointment st0 7 2 1 100 []).2 = .ok 1 :=
  ⟨rfl, ((claim_C5 st0 7 2 1 100 []).2 1 rfl).1⟩

/-! ## base64url lemmas -/

theorem b64v_b64c : ∀ n, (h : n < 64) → b64v (b64c n) = some ⟨n, h⟩ := by decide

theorem b64c_props : ∀ n, n < 64 → b64c n ≠ '.' ∧ (b64c n).toNat < 128 := by decide

theorem b64_roundtrip :
    ∀ bs : List Byte, b64urlDecodeChars (b64urlEncodeBytes bs) = some bs
  | [] => rfl
  | [a] => by
      obtain ⟨av, ha⟩ := a
      simp only [b64urlEncodeBytes, b64urlDecodeChars]
      rw [b64v_b64c _ (by omega), b64v_b64c _ (by omega)]
      simp only [Option.bind_eq_bind, Option.some_bind, Option.some.injEq,
        List.cons.injEq, and_true, Fin.mk.injEq]
      omega
  | [a, b] => by
      obtain ⟨av, ha⟩ := a
      obtain ⟨bv, hb⟩ := b
      simp only [b64urlEncodeBytes, b64urlDecodeChars]
      rw [b64v_b64c _ (by omega), b64v_b64c _ (by omega), b64v_b64c _ (by omega)]
      simp only [Option.bind_eq_bind, Option.some_bind, Option.some.injEq,
        List.cons.injEq, and_true, Fin.mk.injEq]
      omega
  | a :: b :: c :: rest => by
      obtain ⟨av, ha⟩ := a
      obtain ⟨bv, hb⟩ := b
      obtain ⟨cv, hc⟩ := c
      have ih := b64_roundtrip rest
      simp only [b64urlEncodeBytes, b64urlDecodeChars]
      rw [b64v_b64c _ (by omega), b64v_b64c _ (by omega), b64v_b64c _ (by omega),
        b64v_b64c _ (by omega)]
      simp only [Option.bind_eq_bind, Option.some_bind]
      rw [ih]
      simp only [Option.bind_eq_bind, Option.some_bind, Option.some.injEq,
        List.cons.injEq, and_true, Fin.mk.injEq]
      omega

theorem splitDot_nodot {xs : List Char} (h : ∀ x ∈ xs, x ≠ '.') :
    splitDot xs = [xs] := by
  induction xs with
  | nil => rfl
  | cons c cs ih =>
      have hc : c ≠ '.' := h c (by simp)
      have := ih fun x hx => h x (by simp [hx])
      simp [splitDot, hc, this]

theorem splitDot_append {xs : List Char} (h : ∀ x ∈ xs, x ≠ '.')
    (rest : List Char) : splitDot (xs ++ '.' :: rest) = xs :: splitDot rest := by
  induction xs with
  | nil => simp [splitDot]
  | cons c cs ih =>
      have hc : c ≠ '.' := h c (by simp)
      have ih' := ih fun x hx => h x (by simp [hx])
      simp only [List.cons_append, splitDot, if_neg hc, List.append_eq, ih']

theorem utf8Encode_ascii_cons {c : Char} (hc : c.toNat < 128) (cs : List Char) :
    utf8Encode (c :: cs) = byteOf c.toNat :: utf8Encode cs := by
  simp [utf8Encode, utf8Char, hc]

theorem utf8DecodeOne_ascii {c : Char} (hc : c.toNat < 128) (rest : List Byte) :
    utf8DecodeOne (byteOf c.toNat) rest = some (c, rest) := by
  have hb : (byteOf c.toNat).val = c.toNat := by
    simp [byteOf, Nat.mod_eq_of_lt (show c.toNat < 256 by omega)]
  simp only [utf8DecodeOne, hb]
  rw [if_pos (show c.toNat < 0x80 by omega)]
  simp [Char.ofNat_toNat]

theorem utf8_loop_ascii :
    ∀ (s : List Char) (fuel : Nat), (∀ c ∈ s, c.toNat < 128) →
      (utf8Encode s).length ≤ fuel →
      utf8DecodeLoop fuel (utf8Encode s) = some s := by
  intro s
  induction s with
  | nil =>
      intro fuel _ _
      cases fuel <;> rfl
  | cons c cs ih =>
      intro fuel h hlen
      have hc : c.toNat < 128 := h c (by simp)
      rw [utf8Encode_ascii_cons hc] at hlen ⊢
      cases fuel with
      | zero => simp at hlen
      | succ f =>
          simp only [utf8DecodeLoop, utf8DecodeOne_ascii hc]
          rw [ih f (fun x hx => h x (by simp [hx])) (by simpa using hlen)]
          rfl

theorem utf8_ascii_roundtrip {s : List Char} (h : ∀ c ∈ s, c.toNat < 128) :
    utf8Decode (utf8Encode s) = some s :=
  utf8_loop_ascii s _ h le_rfl

/-! ## json.dumps output is ASCII (ensure_ascii) -/

theorem hexDig_ascii (n : Nat) : (hexDig n).toNat < 128 := by
  by_cases h : n < 16
  · have hall : ∀ k, k < 16 → (hexDig k).toNat < 128 := by decide
    exact hall n h
  · unfold hexDig
    rw [List.getD_eq_default _ _ (by
      have h16 : ("0123456789abcdef".toList).length = 16 := rfl
      omega)]
    decide

theorem escU_ascii (m : Nat) : ∀ x ∈ '\\' :: 'u' :: hex4 m, x.toNat < 128 := by
  intro x hx
  simp only [hex4, List.mem_cons, List.not_mem_nil, or_false] at hx
  rcases hx with rfl | rfl | rfl | rfl | rfl | rfl
  · decide
  · decide
  all_goals exact hexDig_ascii _

theorem jsonEscapeChar_ascii (c : Char) : ∀ x ∈ jsonEscapeChar c, x.toNat < 128 := by
  intro x hx
  simp only [jsonEscapeChar] at hx
  split_ifs at hx with h1 h2 h3 h4 h5 h6 h7 h8 h9
  · simp only [List.mem_cons, List.not_mem_nil, or_false] at hx
    rcases hx with rfl | rfl <;> decide
  · simp only [List.mem_cons, List.not_mem_nil, or_false] at hx
    rcases hx with rfl | rfl <;> decide
  · simp only [List.mem_cons, List.not_mem_nil, or_false] at hx
    rcases hx with rfl | rfl <;> decide
  · simp only [List.mem_cons, List.not_mem_nil, or_false] at hx
    rcases hx with rfl | rfl <;> decide
  · simp only [List.mem_cons, List.not_mem_nil, or_false] at hx
    rcases hx with rfl | rfl <;> decide
  · simp only [List.mem_cons, List.not_mem_nil, or_false] at hx
    rcases hx with rfl | rfl <;> decide
  · simp only [List.mem_cons, List.not_mem_nil, or_false] at hx
    rcases hx with rfl | rfl <;> decide
  · exact escU_ascii _ x hx
  · rw [List.mem_append] at hx
    rcases hx with hx | hx
    · exact escU_ascii _ x hx
    · exact escU_ascii _ x hx
  · simp only [List.mem_cons, List.not_mem_nil, or_false] at hx
    subst hx
    push_neg at h8
    omega

/-! ## json.loads inverts json.dumps on the flat objects in scope -/

theorem digitVal_ofNat : ∀ k, k < 10 → digitVal (Char.ofNat (48 + k)) = k := by
  decide

theorem isDigitCh_ofNat : ∀ k, k < 10 → isDigitCh (Char.ofNat (48 + k)) = true := by
  decide

theorem hexVal_hexDig : ∀ k, k < 16 → hexVal (hexDig k) = some k := by decide

theorem hexVal4_hex4 {n : Nat} (h : n < 65536) :
    hexVal4 (hexDig (n / 4096 % 16)) (hexDig (n / 256 % 16))
      (hexDig (n / 16 % 16)) (hexDig (n % 16)) = some n := by
  simp only [hexVal4]
  rw [hexVal_hexDig _ (by omega), hexVal_hexDig _ (by omega),
    hexVal_hexDig _ (by omega), hexVal_hexDig _ (by omega)]
  simp only [Option.bind_eq_bind, Option.some_bind, Option.some.injEq]
  omega

theorem consumeDigits_spec :
    ∀ (ds : List Char) (acc : Nat) (rest : List Char),
      (∀ c ∈ ds, isDigitCh c = true) →
      (∀ c, rest.head? = some c → isDigitCh c = false) →
      consumeDigits acc (ds ++ rest) =
        (ds.foldl (fun a c => a * 10 + digitVal c) acc, rest) := by
  intro ds
  induction ds with
  | nil =>
      intro acc rest _ hr
      cases rest with
      | nil => rfl
      | cons c rest' =>
          simp only [List.nil_append, consumeDigits, List.foldl_nil]
          rw [if_neg (by simp [hr c rfl])]
  | cons d ds ih =>
      intro acc rest hd hr
      simp only [List.cons_append, consumeDigits, List.foldl_cons]
      rw [if_pos (hd d (by simp))]
      exact ih _ rest (fun c hc => hd c (by simp [hc])) hr

theorem natToDec_foldl (n : Nat) :
    ∀ acc, (natToDec n).foldl (fun a c => a * 10 + digitVal c) acc =
      acc * 10 ^ (natToDec n).length + n := by
  intro acc
  unfold natToDec
  split
  · next h =>
      simp only [List.foldl_cons, List.foldl_nil, List.length_cons,
        List.length_nil, digitVal_ofNat n h]
      ring
  · next h =>
      rw [List.foldl_append]
      rw [natToDec_foldl (n / 10) acc]
      simp only [List.foldl_cons, List.foldl_nil]
      rw [digitVal_ofNat (n % 10) (by omega)]
      rw [List.length_append]
      simp only [List.length_cons, List.length_nil]
      rw [pow_succ]
      have hdm := Nat.div_add_mod n 10
      have hre : (acc * 10 ^ (natToDec (n / 10)).length + n / 10) * 10 + n % 10
          = acc * (10 ^ (natToDec (n / 10)).length * 10)
            + (10 * (n / 10) + n % 10) := by ring
      rw [hre, hdm]
termination_by n
decreasing_by exact Nat.div_lt_self (by omega) (by omega)

theorem natToDec_digits (n : Nat) : ∀ c ∈ natToDec n, isDigitCh c = true := by
  unfold natToDec
  split
  · next h =>
      intro c hc
      simp only [List.mem_cons, List.not_mem_nil, or_false] at hc
      subst hc
      have hall : ∀ k, k < 10 → isDigitCh (Char.ofNat (48 + k)) = true := by decide
      exact hall n h
  · next h =>
      intro c hc
      rw [List.mem_append] at hc
      rcases hc with hc | hc
      · exact natToDec_digits (n / 10) c hc
      · simp only [List.mem_cons, List.not_mem_nil, or_false] at hc
        subst hc
        have hall : ∀ k, k < 10 → isDigitCh (Char.ofNat (48 + k)) = true := by decide
        exact hall (n % 10) (Nat.mod_lt _ (by omega))
termination_by n
decreasing_by exact Nat.div_lt_self (by omega) (by omega)

theorem natToDec_ne_nil (n : Nat) : natToDec n ≠ [] := by
  unfold natToDec
  split <;> simp

theorem jsonEscapeChar_ne_nil (c : Char) : jsonEscapeChar c ≠ [] := by
  unfold jsonEscapeChar
  split_ifs <;> simp [hex4]

theorem escape_len (s : List Char) :
    s.length ≤ ((s.map jsonEscapeChar).flatten).length := by
  induction s with
  | nil => simp
  | cons c cs ih =>
      simp only [List.map_cons, List.flatten_cons, List.length_append,
        List.length_cons]
      have := List.length_pos.mpr (jsonEscapeChar_ne_nil c)
      omega

theorem parseStringStep_quote (r : List Char) :
    parseStringStep '"' r = some (none, r) := by
  simp [parseStringStep]

theorem parseStringStep_short {e c2 : Char} (he : shortUnescape e = some c2)
    (hu : e ≠ 'u') (r : List Char) :
    parseStringStep '\\' (e :: r) = some (some c2, r) := by
  simp only [parseStringStep]
  rw [if_pos trivial, if_neg hu, he]
  rw [if_neg (show ('\\' : Char) ≠ '"' by decide)]

theorem parseStringStep_u {n : Nat} (hlt : n < 0x10000)
    (hs : ¬ (0xD800 ≤ n ∧ n < 0xE000)) (r : List Char) :
    parseStringStep '\\' ('u' :: (hex4 n ++ r)) =
      some (some (Char.ofNat n), r) := by
  simp only [parseStringStep, hex4, List.cons_append, List.nil_append]
  rw [if_pos trivial, if_pos trivial]
  simp only [hexVal4_hex4 hlt]
  rw [if_neg (show ¬ (0xD800 ≤ n ∧ n < 0xDC00) by omega),
    if_neg (show ¬ (0xDC00 ≤ n ∧ n < 0xE000) by omega)]
  rw [if_neg (show ('\\' : Char) ≠ '"' by decide)]

theorem parseStringStep_u2 {n m : Nat} (hn : 0xD800 ≤ n ∧ n < 0xDC00)
    (hm : 0xDC00 ≤ m ∧ m < 0xE000) (r : List Char) :
    parseStringStep '\\' ('u' :: (hex4 n ++ ('\\' :: 'u' :: (hex4 m ++ r)))) =
      some (some (Char.ofNat (0x10000 + (n - 0xD800) * 1024 + (m - 0xDC00))),
        r) := by
  have hn16 : n < 0x10000 := by omega
  have hm16 : m < 0x10000 := by omega
  simp only [parseStringStep, hex4, List.cons_append, List.nil_append]
  rw [if_pos trivial, if_pos trivial]
  simp only [hexVal4_hex4 hn16]
  rw [if_pos hn]
  rw [if_pos (show True ∧ True from ⟨trivial, trivial⟩)]
  simp only [hexVal4_hex4 hm16]
  rw [if_pos hm]
  rw [if_neg (show ('\\' : Char) ≠ '"' by decide)]

theorem parseStringStep_plain {c : Char} (h1 : c ≠ '"') (h2 : c ≠ '\\')
    (h3 : ¬ c.toNat < 0x20) (r : List Char) :
    parseStringStep c r = some (some c, r) := by
  simp only [parseStringStep]
  rw [if_neg h1, if_neg h2, if_neg h3]

theorem parseStringLoop_consume {fuel : Nat} {c0 ch : Char}
    {rest0 T2 cs rest : List Char}
    (hstep : parseStringStep c0 rest0 = some (some ch, T2))
    (hloop : parseStringLoop fuel T2 = some (cs, rest)) :
    parseStringLoop (fuel + 1) (c0 :: rest0) = some (ch :: cs, rest) := by
  simp only [parseStringLoop, hstep, hloop, Option.map_some']

theorem parseStringLoop_dump :
    ∀ (s : List Char) (rest : List Char) (fuel : Nat),
      s.length + 1 ≤ fuel →
      parseStringLoop fuel ((s.map jsonEscapeChar).flatten ++ '"' :: rest) =
        some (s, rest) := by
  intro s
  induction s with
  | nil =>
      intro rest fuel hf
      cases fuel with
      | zero => omega
      | succ f =>
          simp only [List.map_nil, List.flatten_nil, List.nil_append,
            parseStringLoop, parseStringStep_quote]
  | cons c cs ih =>
      intro rest fuel hf
      cases fuel with
      | zero => simp at hf
      | succ f =>
          have hf' : cs.length + 1 ≤ f := by simp at hf; omega
          have hvalid : c.toNat < 0xD800
              ∨ (0xDFFF < c.toNat ∧ c.toNat < 0x110000) := by
            rcases c.valid with h | h
            · left; exact h
            · right; exact h
          simp only [List.map_cons, List.flatten_cons, List.append_assoc]
          set T := (cs.map jsonEscapeChar).flatten ++ '"' :: rest with hT
          have ihT : parseStringLoop f T = some (cs, rest) := ih rest f hf'
          by_cases h1 : c = '"'
          · subst h1
            rw [show jsonEscapeChar '"' = ['\\', '"'] from rfl]
            simp only [List.cons_append, List.nil_append, parseStringLoop, List.append_eq]
            rw [parseStringStep_short (show shortUnescape '"' = some '"'
              from rfl) (by decide)]
            simp only [ihT, Option.map_some']
          · by_cases h2 : c = '\\'
            · subst h2
              rw [show jsonEscapeChar '\\' = ['\\', '\\'] from rfl]
              simp only [List.cons_append, List.nil_append, parseStringLoop, List.append_eq]
              rw [parseStringStep_short (show shortUnescape '\\' = some '\\'
                from rfl) (by decide)]
              simp only [ihT, Option.map_some']
            · by_cases h3 : c = '\n'
              · subst h3
                rw [show jsonEscapeChar '\n' = ['\\', 'n'] from rfl]
                simp only [List.cons_append, List.nil_append, parseStringLoop, List.append_eq]
                rw [parseStringStep_short (show shortUnescape 'n' = some '\n'
                  from rfl) (by decide)]
                simp only [ihT, Option.map_some']
              · by_cases h4 : c = '\r'
                · subst h4
                  rw [show jsonEscapeChar '\r' = ['\\', 'r'] from rfl]
                  simp only [List.cons_append, List.nil_append, parseStringLoop, List.append_eq]
                  rw [parseStringStep_short (show shortUnescape 'r' = some '\r'
                    from rfl) (by decide)]
                  simp only [ihT, Option.map_some']
                · by_cases h5 : c = '\t'
                  · subst h5
                    rw [show jsonEscapeChar '\t' = ['\\', 't'] from rfl]
                    simp only [List.cons_append, List.nil_append,
                      parseStringLoop, List.append_eq]
                    rw [parseStringStep_short (show shortUnescape 't'
                      = some '\t' from rfl) (by decide)]
                    simp only [ihT, Option.map_some']
                  · by_cases h6 : c.toNat = 8
                    · rw [show jsonEscapeChar c = ['\\', 'b'] from by
                        simp only [jsonEscapeChar]
                        rw [if_neg h1, if_neg h2, if_neg h3, if_neg h4,
                          if_neg h5, if_pos h6]]
                      simp only [List.cons_append, List.nil_append,
                        parseStringLoop, List.append_eq]
                      rw [parseStringStep_short (show shortUnescape 'b'
                        = some (Char.ofNat 8) from rfl) (by decide)]
                      simp only [ihT, Option.map_some']
                      rw [show Char.ofNat 8 = c from by
                        rw [← h6, Char.ofNat_toNat]]
                    · by_cases h7 : c.toNat = 12
                      · rw [show jsonEscapeChar c = ['\\', 'f'] from by
                          simp only [jsonEscapeChar]
                          rw [if_neg h1, if_neg h2, if_neg h3, if_neg h4,
                            if_neg h5, if_neg h6, if_pos h7]]
                        simp only [List.cons_append, List.nil_append,
                          parseStringLoop, List.append_eq]
                        rw [parseStringStep_short (show shortUnescape 'f'
                          = some (Char.ofNat 12) from rfl) (by decide)]
                        simp only [ihT, Option.map_some']
                        rw [show Char.ofNat 12 = c from by
                          rw [← h7, Char.ofNat_toNat]]
                      · by_cases h8 : c.toNat < 0x20 ∨ 0x7E < c.toNat
                        · by_cases h9 : c.toNat < 0x10000
                          · rw [show jsonEscapeChar c
                                = '\\' :: 'u' :: hex4 c.toNat from by
                              simp only [jsonEscapeChar]
                              rw [if_neg h1, if_neg h2, if_neg h3, if_neg h4,
                                if_neg h5, if_neg h6, if_neg h7, if_pos h8,
                                if_pos h9]]
                            simp only [List.cons_append, parseStringLoop, List.append_eq]
                            rw [parseStringStep_u h9 (by omega)]
                            simp only [ihT, Option.map_some']
                            rw [Char.ofNat_toNat]
                          · have hstep := @parseStringStep_u2
                              (0xD800 + (c.toNat - 0x10000) / 1024)
                              (0xDC00 + (c.toNat - 0x10000) % 1024)
                              (by constructor <;> omega)
                              (by constructor <;> omega) T
                            have hres := parseStringLoop_consume hstep ihT
                            rw [show Char.ofNat (0x10000 + (0xD800
                                + (c.toNat - 0x10000) / 1024 - 0xD800) * 1024
                                + (0xDC00 + (c.toNat - 0x10000) % 1024
                                  - 0xDC00)) = c from by
                              rw [show 0x10000 + (0xD800 + (c.toNat - 0x10000)
                                  / 1024 - 0xD800) * 1024 + (0xDC00
                                  + (c.toNat - 0x10000) % 1024 - 0xDC00)
                                  = c.toNat from by omega]
                              rw [Char.ofNat_toNat]] at hres
                            rw [show jsonEscapeChar c
                                = ('\\' :: 'u' :: hex4 (0xD800
                                    + (c.toNat - 0x10000) / 1024))
                                  ++ ('\\' :: 'u' :: hex4 (0xDC00
                                    + (c.toNat - 0x10000) % 1024)) from by
                              simp only [jsonEscapeChar]
                              rw [if_neg h1, if_neg h2, if_neg h3, if_neg h4,
                                if_neg h5, if_neg h6, if_neg h7, if_pos h8,
                                if_neg h9]]
                            exact hres
                        · rw [show jsonEscapeChar c = [c] from by
                            simp only [jsonEscapeChar]
                            rw [if_neg h1, if_neg h2, if_neg h3, if_neg h4,
                              if_neg h5, if_neg h6, if_neg h7, if_neg h8]]
                          simp only [List.cons_append, List.nil_append,
                            parseStringLoop, List.append_eq]
                          rw [parseStringStep_plain h1 h2 (by omega)]
                          simp only [ihT, Option.map_some']

theorem parseIntTok_natToDec (m : Nat) (rest : List Char)
    (hr : ∀ c, rest.head? = some c → isDigitCh c = false) :
    parseIntTok (natToDec m ++ rest) = some ((m : Int), rest)
    ∧ parseIntTok ('-' :: (natToDec m ++ rest)) = some (-(m : Int), rest) := by
  rcases hcons : natToDec m with _ | ⟨d, ds⟩
  · exact absurd hcons (natToDec_ne_nil m)
  · have hd : isDigitCh d = true := natToDec_digits m d (by rw [hcons]; simp)
    have hds : ∀ c ∈ ds, isDigitCh c = true := fun c hc =>
      natToDec_digits m c (by rw [hcons]; simp [hc])
    have hdm : d ≠ '-' := by
      intro he
      subst he
      exact absurd hd (by decide)
    have hfold : ds.foldl (fun a c => a * 10 + digitVal c) (digitVal d) = m := by
      have h0 : (natToDec m).foldl (fun a c => a * 10 + digitVal c) 0 = m := by
        rw [natToDec_foldl m 0]
        simp
      rw [hcons] at h0
      simpa using h0
    have hcd := consumeDigits_spec ds (digitVal d) rest hds hr
    constructor
    · simp only [List.cons_append, parseIntTok]
      rw [if_neg hdm, if_pos hd, hcd]
      simp [hfold]
    · simp only [List.cons_append, parseIntTok]
      rw [if_pos trivial, if_pos hd, hcd]
      simp [hfold]

theorem parseIntTok_dumpInt (n : Int) (rest : List Char)
    (hr : ∀ c, rest.head? = some c → isDigitCh c = false) :
    parseIntTok (dumpInt n ++ rest) = some (n, rest) := by
  by_cases hn : n < 0
  · simp only [dumpInt, if_pos hn, List.cons_append]
    rw [(parseIntTok_natToDec n.natAbs rest hr).2]
    congr 1
    rw [Prod.mk.injEq]
    constructor
    · omega
    · rfl
  · simp only [dumpInt, if_neg hn]
    rw [(parseIntTok_natToDec n.natAbs rest hr).1]
    congr 1
    rw [Prod.mk.injEq]
    constructor
    · omega
    · rfl

theorem parseStringBody_dump (s rest : List Char) :
    parseStringBody ((s.map jsonEscapeChar).flatten ++ '"' :: rest) =
      some (s, rest) := by
  refine parseStringLoop_dump s rest _ ?_
  have := escape_len s
  simp only [List.length_append, List.length_cons]
  omega

theorem digit_ne_quote {c : Char} (h : isDigitCh c = true) : c ≠ '"' := by
  intro he
  subst he
  exact absurd h (by decide)

theorem parseVal_dump (v : JVal) (rest : List Char)
    (hr : ∀ c, rest.head? = some c → isDigitCh c = false) :
    parseVal (dumpVal v ++ rest) = some (v, rest) := by
  cases v with
  | jstr s =>
      rw [show dumpVal (JVal.jstr s) ++ rest
          = '"' :: ((s.map jsonEscapeChar).flatten ++ '"' :: rest) from by
        simp [dumpVal, dumpStr]]
      simp only [parseVal]
      rw [if_pos trivial, parseStringBody_dump]
      rfl
  | jint n =>
      by_cases hn : n < 0
      · rw [show dumpVal (JVal.jint n) ++ rest
            = '-' :: (natToDec n.natAbs ++ rest) from by
          simp [dumpVal, dumpInt, hn]]
        simp only [parseVal]
        rw [if_neg (by decide)]
        rw [show ('-' :: (natToDec n.natAbs ++ rest))
            = dumpInt n ++ rest from by simp [dumpInt, hn]]
        rw [parseIntTok_dumpInt n rest hr]
        rfl
      · rcases hcons : natToDec n.natAbs with _ | ⟨d, ds⟩
        · exact absurd hcons (natToDec_ne_nil _)
        · have hd : isDigitCh d = true :=
            natToDec_digits _ d (by rw [hcons]; simp)
          rw [show dumpVal (JVal.jint n) ++ rest
              = d :: (ds ++ rest) from by
            simp [dumpVal, dumpInt, hn, hcons]]
          simp only [parseVal]
          rw [if_neg (digit_ne_quote hd)]
          rw [show (d :: (ds ++ rest)) = dumpInt n ++ rest from by
            simp [dumpInt, hn, hcons]]
          rw [parseIntTok_dumpInt n rest hr]
          rfl

theorem joinComma_entries_len (o : JObj) :
    o.length ≤ (joinComma (o.map dumpEntry)).length := by
  induction o with
  | nil => simp [joinComma]
  | cons e o' ih =>
      cases o' with
      | nil =>
          simp only [List.map_cons, List.map_nil, joinComma, List.length_cons,
            List.length_nil]
          have : dumpEntry e ≠ [] := by
            cases e with
            | mk k v => simp [dumpEntry, dumpStr]
          have := List.length_pos.mpr this
          omega
      | cons e2 o'' =>
          simp only [List.map_cons, joinComma, List.length_append,
            List.length_cons] at *
          have : dumpEntry e ≠ [] := by
            cases e with
            | mk k v => simp [dumpEntry, dumpStr]
          have := List.length_pos.mpr this
          omega

theorem parseEntries_dump :
    ∀ (o : JObj), o ≠ [] → ∀ (rest : List Char) (fuel : Nat),
      o.length ≤ fuel →
      parseEntries fuel (joinComma (o.map dumpEntry) ++ '}' :: rest) =
        some (o, rest) := by
  intro o
  induction o with
  | nil => intro h; exact absurd rfl h
  | cons e o' ih =>
      intro _ rest fuel hf
      cases fuel with
      | zero => simp at hf
      | succ f =>
          obtain ⟨k, v⟩ := e
          cases o' with
          | nil =>
              have hdig : ∀ c, ('}' :: rest).head? = some c →
                  isDigitCh c = false := by
                intro c hc
                simp only [List.head?_cons, Option.some.injEq] at hc
                subst hc
                decide
              rw [show joinComma (((k, v) :: []).map dumpEntry) ++ '}' :: rest
                  = '"' :: ((k.map jsonEscapeChar).flatten
                    ++ '"' :: (':' :: (dumpVal v ++ '}' :: rest))) from by
                simp [joinComma, dumpEntry, dumpStr]]
              simp only [parseEntries, parseStringBody_dump,
                parseVal_dump v ('}' :: rest) hdig]
          | cons e2 o'' =>
              have hdig : ∀ c, (',' :: (joinComma ((e2 :: o'').map dumpEntry)
                    ++ '}' :: rest)).head? = some c →
                  isDigitCh c = false := by
                intro c hc
                simp only [List.head?_cons, Option.some.injEq] at hc
                subst hc
                decide
              rw [show joinComma (((k, v) :: e2 :: o'').map dumpEntry)
                    ++ '}' :: rest
                  = '"' :: ((k.map jsonEscapeChar).flatten
                    ++ '"' :: (':' :: (dumpVal v
                      ++ ',' :: (joinComma ((e2 :: o'').map dumpEntry)
                        ++ '}' :: rest)))) from by
                simp [joinComma, dumpEntry, dumpStr]]
              simp only [parseEntries, parseStringBody_dump,
                parseVal_dump v (',' :: (joinComma ((e2 :: o'').map dumpEntry)
                  ++ '}' :: rest)) hdig]
              rw [ih (by simp) rest f (by simp at hf ⊢; omega)]
              rfl

theorem joinComma_entries_head (e : List Char × JVal) (o' : JObj) :
    ∃ tl, joinComma ((e :: o').map dumpEntry) = '"' :: tl := by
  obtain ⟨k, v⟩ := e
  cases o' with
  | nil =>
      refine ⟨(k.map jsonEscapeChar).flatten ++ '"' :: (':' :: dumpVal v), ?_⟩
      simp [joinComma, dumpEntry, dumpStr]
  | cons e2 o'' =>
      refine ⟨(k.map jsonEscapeChar).flatten ++ '"' :: (':' :: (dumpVal v
        ++ ',' :: joinComma ((e2 :: o'').map dumpEntry))), ?_⟩
      simp [joinComma, dumpEntry, dumpStr]

theorem loadsObj_dumpObj (o : JObj) : loadsObj (dumpObj o) = some o := by
  cases o with
  | nil => rfl
  | cons e o' =>
      obtain ⟨k, v⟩ := e
      obtain ⟨tl, htl⟩ := joinComma_entries_head (k, v) o'
      rw [show dumpObj ((k, v) :: o')
          = '{' :: ('"' :: (tl ++ ['}'])) from by
        simp only [dumpObj]
        rw [htl]
        simp]
      simp only [loadsObj, List.head?_cons]
      rw [if_neg (show ¬ (some '"' = some '}') by decide)]
      rw [show ('"' :: (tl ++ ['}'])) = joinComma (((k, v) :: o').map dumpEntry)
          ++ '}' :: [] from by rw [htl]; simp]
      rw [parseEntries_dump ((k, v) :: o') (by simp) [] _ (by
        have h1 := joinComma_entries_len ((k, v) :: o')
        simp only [List.length_append, List.length_cons, List.length_nil] at h1 ⊢
        omega)]

theorem natToDec_ascii (n : Nat) : ∀ c ∈ natToDec n, c.toNat < 128 := by
  unfold natToDec
  split
  · next h =>
      intro c hc
      simp only [List.mem_cons, List.not_mem_nil, or_false] at hc
      subst hc
      have hall : ∀ k, k < 10 → (Char.ofNat (48 + k)).toNat < 128 := by decide
      exact hall n h
  · next h =>
      intro c hc
      rw [List.mem_append] at hc
      rcases hc with hc | hc
      · exact natToDec_ascii (n / 10) c hc
      · simp only [List.mem_cons, List.not_mem_nil, or_false] at hc
        subst hc
        have hall : ∀ k, k < 10 → (Char.ofNat (48 + k)).toNat < 128 := by decide
        exact hall (n % 10) (Nat.mod_lt _ (by omega))
termination_by n
decreasing_by exact Nat.div_lt_self (by omega) (by omega)

theorem dumpStr_ascii (s : List Char) : ∀ x ∈ dumpStr s, x.toNat < 128 := by
  intro x hx
  simp only [dumpStr] at hx
  rw [List.mem_append, List.mem_cons] at hx
  rcases hx with (rfl | hx) | hx
  · decide
  · rw [List.mem_flatten] at hx
    obtain ⟨l, hl, hxl⟩ := hx
    rw [List.mem_map] at hl
    obtain ⟨c, _, rfl⟩ := hl
    exact jsonEscapeChar_ascii c x hxl
  · simp only [List.mem_cons, List.not_mem_nil, or_false] at hx
    subst hx
    decide

theorem dumpInt_ascii (n : Int) : ∀ x ∈ dumpInt n, x.toNat < 128 := by
  intro x hx
  simp only [dumpInt] at hx
  split_ifs at hx
  · simp only [List.mem_cons] at hx
    rcases hx with rfl | hx
    · decide
    · exact natToDec_ascii _ x hx
  · exact natToDec_ascii _ x hx

theorem dumpVal_ascii (v : JVal) : ∀ x ∈ dumpVal v, x.toNat < 128 := by
  cases v with
  | jstr s => exact dumpStr_ascii s
  | jint n => exact dumpInt_ascii n

theorem dumpEntry_ascii (kv : List Char × JVal) :
    ∀ x ∈ dumpEntry kv, x.toNat < 128 := by
  intro x hx
  simp only [dumpEntry] at hx
  rw [List.mem_append] at hx
  rcases hx with hx | hx
  · exact dumpStr_ascii _ x hx
  · simp only [List.mem_cons] at hx
    rcases hx with rfl | hx
    · decide
    · exact dumpVal_ascii _ x hx

theorem joinComma_ascii :
    ∀ (ps : List (List Char)), (∀ p ∈ ps, ∀ x ∈ p, x.toNat < 128) →
      ∀ x ∈ joinComma ps, x.toNat < 128
  | [] => by intro _ x hx; simp [joinComma] at hx
  | [p] => by
      intro h x hx
      simp only [joinComma] at hx
      exact h p (by simp) x hx
  | p :: q :: rest => by
      intro h x hx
      simp only [joinComma] at hx
      rw [List.mem_append] at hx
      rcases hx with hx | hx
      · exact h p (by simp) x hx
      · simp only [List.mem_cons] at hx
        rcases hx with rfl | hx
        · decide
        · exact joinComma_ascii (q :: rest) (fun p hp => h p (by simp [hp])) x hx

theorem dumpObj_ascii (o : JObj) : ∀ x ∈ dumpObj o, x.toNat < 128 := by
  intro x hx
  simp only [dumpObj] at hx
  rw [List.mem_append, List.mem_cons] at hx
  rcases hx with (rfl | hx) | hx
  · decide
  · refine joinComma_ascii _ ?_ x hx
    intro p hp
    rw [List.mem_map] at hp
    obtain ⟨kv, _, rfl⟩ := hp
    exact dumpEntry_ascii kv
  · simp only [List.mem_cons, List.not_mem_nil, or_false] at hx
    subst hx
    decide

theorem b64urlEncodeBytes_props :
    ∀ (bs : List Byte), ∀ x ∈ b64urlEncodeBytes bs, x ≠ '.' ∧ x.toNat < 128
  | [] => by simp [b64urlEncodeBytes]
  | [a] => by
      intro x hx
      simp only [b64urlEncodeBytes, List.mem_cons, List.not_mem_nil, or_false]
        at hx
      rcases hx with rfl | rfl
      · exact b64c_props _ (by have := a.isLt; omega)
      · exact b64c_props _ (by have := a.isLt; omega)
  | [a, b] => by
      intro x hx
      simp only [b64urlEncodeBytes, List.mem_cons, List.not_mem_nil, or_false]
        at hx
      rcases hx with rfl | rfl | rfl
      · exact b64c_props _ (by have := a.isLt; omega)
      · exact b64c_props _ (by have := a.isLt; have := b.isLt; omega)
      · exact b64c_props _ (by have := b.isLt; omega)
  | a :: b :: c :: rest => by
      intro x hx
      simp only [b64urlEncodeBytes, List.mem_cons] at hx
      rcases hx with rfl | rfl | rfl | rfl | h
      · exact b64c_props _ (by have := a.isLt; omega)
      · exact b64c_props _ (by have := a.isLt; have := b.isLt; omega)
      · exact b64c_props _ (by have := b.isLt; have := c.isLt; omega)
      · exact b64c_props _ (by have := c.isLt; omega)
      · exact b64urlEncodeBytes_props rest x h

/-! ## verify on well-formed tokens -/

namespace JwtHS256

theorem asciiOK_dot_join (H P : List Char)
    (hH : ∀ x ∈ H, x.toNat < 128) (hP : ∀ x ∈ P, x.toNat < 128) :
    asciiOK (H ++ '.' :: P) = true := by
  simp only [asciiOK, List.all_eq_true, decide_eq_true_eq]
  intro x hx
  rw [List.mem_append, List.mem_cons] at hx
  rcases hx with hx | rfl | hx
  · exact hH x hx
  · decide
  · exact hP x hx

theorem compare_digest_self (a : List Char) (h : ∀ x ∈ a, x.toNat < 128) :
    compare_digest a a = .ok true := by
  have h1 : asciiOK a = true := by
    simp only [asciiOK, List.all_eq_true, decide_eq_true_eq]
    exact h
  simp [compare_digest, h1]

/-- Running verify on a token whose first two segments are the base64url
utf-8 encodings of dumped header and payload objects, with an HS256 alg
header, reduces to the signature comparison against the third segment
followed by the claim checks. -/
theorem verify_wellFormed (j : JwtHS256) (header payload : JObj)
    (halg : jget header ("alg".toList) = some (JVal.jstr ("HS256".toList)))
    (s2 : List Char) (hs2 : ∀ x ∈ s2, x ≠ '.') (lee now : Int) :
    verify j (b64urlEncodeBytes (utf8Encode (dumpObj header))
        ++ '.' :: (b64urlEncodeBytes (utf8Encode (dumpObj payload))
          ++ '.' :: s2)) lee now
    = (match compare_digest
          (_sign j (asciiBytes (b64urlEncodeBytes (utf8Encode (dumpObj header))
            ++ '.' :: b64urlEncodeBytes (utf8Encode (dumpObj payload)))))
          s2 with
       | .error e => .error e
       | .ok same =>
           if same then checkTail j payload lee now
           else .error .signatureError) := by
  have hH := b64urlEncodeBytes_props (utf8Encode (dumpObj header))
  have hP := b64urlEncodeBytes_props (utf8Encode (dumpObj payload))
  have hsplit : splitDot (b64urlEncodeBytes (utf8Encode (dumpObj header))
      ++ '.' :: (b64urlEncodeBytes (utf8Encode (dumpObj payload))
        ++ '.' :: s2))
      = [b64urlEncodeBytes (utf8Encode (dumpObj header)),
         b64urlEncodeBytes (utf8Encode (dumpObj payload)), s2] := by
    rw [splitDot_append (fun x hx => (hH x hx).1),
        splitDot_append (fun x hx => (hP x hx).1),
        splitDot_nodot hs2]
  have hdecH : _b64url_decode (b64urlEncodeBytes (utf8Encode (dumpObj header)))
      = some (utf8Encode (dumpObj header)) := b64_roundtrip _
  have hdecP : _b64url_decode (b64urlEncodeBytes (utf8Encode (dumpObj payload)))
      = some (utf8Encode (dumpObj payload)) := b64_roundtrip _
  have hutfH : utf8Decode (utf8Encode (dumpObj header)) = some (dumpObj header) :=
    utf8_ascii_roundtrip (dumpObj_ascii header)
  have hutfP : utf8Decode (utf8Encode (dumpObj payload)) = some (dumpObj payload) :=
    utf8_ascii_roundtrip (dumpObj_ascii payload)
  have hascii : asciiOK (b64urlEncodeBytes (utf8Encode (dumpObj header))
      ++ '.' :: b64urlEncodeBytes (utf8Encode (dumpObj payload))) = true :=
    asciiOK_dot_join _ _ (fun x hx => (hH x hx).2) (fun x hx => (hP x hx).2)
  have hbeq : (jget header ("alg".toList)
      == some (JVal.jstr ("HS256".toList))) = true := by
    rw [halg]
    decide
  simp only [verify, hsplit, hdecH, hutfH, loadsObj_dumpObj, hdecP, hutfP,
    hascii, hbeq, eq_self_iff_true, if_true]

/-- verify of a correctly signed token: the format, decode, algorithm and
signature checks all pass and the result is exactly the claim-check tail
over the embedded payload. -/
theorem verify_signedTokenOf (j : JwtHS256) (header payload : JObj)
    (halg : jget header ("alg".toList) = some (JVal.jstr ("HS256".toList)))
    (lee now : Int) :
    verify j (signedTokenOf j header payload) lee now
      = checkTail j payload lee now := by
  have hsig := b64urlEncodeBytes_props
    (hmacSha256 (utf8Encode j.secret) (asciiBytes
      (b64urlEncodeBytes (utf8Encode (dumpObj header))
        ++ '.' :: b64urlEncodeBytes (utf8Encode (dumpObj payload)))))
  have h := verify_wellFormed j header payload halg _
    (fun x hx => (hsig x hx).1) lee now
  simp only [signedTokenOf, _b64url_encode, _sign, List.cons_append,
    List.append_assoc]
  rw [h]
  simp only [_sign, _b64url_encode]
  rw [compare_digest_self _ (fun x hx => (hsig x hx).2)]
  rfl

end JwtHS256

/-! ## helper lemmas for the tamper and gate claims -/

theorem splitDot_ne_nil : ∀ xs : List Char, splitDot xs ≠ []
  | [] => by simp [splitDot]
  | c :: rest => by
      simp only [splitDot]
      split
      · simp
      · split
        · simp
        · simp

theorem splitDot_dot_mem : ∀ xs : List Char, '.' ∈ xs →
    ∃ a b t, splitDot xs = a :: b :: t
  | [], h => by simp at h
  | c :: rest, h => by
      by_cases hc : c = '.'
      · subst hc
        rcases hne : splitDot rest with _ | ⟨b, t⟩
        · exact absurd hne (splitDot_ne_nil rest)
        · exact ⟨[], b, t, by simp [splitDot, hne]⟩
      · have hmem : '.' ∈ rest := by
          rcases List.mem_cons.mp h with h1 | h1
          · exact absurd h1.symm hc
          · exact h1
        obtain ⟨a, b, t, hab⟩ := splitDot_dot_mem rest hmem
        refine ⟨c :: a, b, t, ?_⟩
        simp [splitDot, hc, hab]

theorem sha256_ne_nil (msg : List Byte) : sha256 msg ≠ [] := by
  simp [sha256, be32bytes]

theorem hmacSha256_ne_nil (key msg : List Byte) : hmacSha256 key msg ≠ [] := by
  simp only [hmacSha256]
  exact sha256_ne_nil _

theorem b64urlEncodeBytes_mem :
    ∀ (bs : List Byte), ∀ x ∈ b64urlEncodeBytes bs, ∃ n, n < 64 ∧ x = b64c n
  | [] => by simp [b64urlEncodeBytes]
  | [a] => by
      intro x hx
      simp only [b64urlEncodeBytes, List.mem_cons, List.not_mem_nil, or_false]
        at hx
      rcases hx with rfl | rfl
      · exact ⟨_, by have := a.isLt; omega, rfl⟩
      · exact ⟨_, by have := a.isLt; omega, rfl⟩
  | [a, b] => by
      intro x hx
      simp only [b64urlEncodeBytes, List.mem_cons, List.not_mem_nil, or_false]
        at hx
      rcases hx with rfl | rfl | rfl
      · exact ⟨_, by have := a.isLt; omega, rfl⟩
      · exact ⟨_, by have := a.isLt; have := b.isLt; omega, rfl⟩
      · exact ⟨_, by have := b.isLt; omega, rfl⟩
  | a :: b :: c :: rest => by
      intro x hx
      simp only [b64urlEncodeBytes, List.mem_cons] at hx
      rcases hx with rfl | rfl | rfl | rfl | h
      · exact ⟨_, by have := a.isLt; omega, rfl⟩
      · exact ⟨_, by have := a.isLt; have := b.isLt; omega, rfl⟩
      · exact ⟨_, by have := b.isLt; have := c.isLt; omega, rfl⟩
      · exact ⟨_, by have := c.isLt; omega, rfl⟩
      · exact b64urlEncodeBytes_mem rest x h

theorem b64urlEncodeBytes_ne_nil {bs : List Byte} (h : bs ≠ []) :
    b64urlEncodeBytes bs ≠ [] := by
  rcases bs with _ | ⟨a, _ | ⟨b, _ | ⟨c, rest⟩⟩⟩
  · exact absurd rfl h
  · simp [b64urlEncodeBytes]
  · simp [b64urlEncodeBytes]
  · simp [b64urlEncodeBytes]

/-! ## jget over appended payload parts -/

theorem jget_append_some {ys : List (List Char × JVal)} {k : List Char}
    {r : JVal} (h : jget ys k = some r) :
    ∀ xs, jget (xs ++ ys) k = some r
  | [] => h
  | (k', v) :: xs => by
      simp only [List.cons_append, jget, List.append_eq,
        jget_append_some h xs]

theorem jget_append_none {ys : List (List Char × JVal)} {k : List Char}
    (h : jget ys k = none) :
    ∀ xs, jget (xs ++ ys) k = jget xs k
  | [] => by simp [h, jget]
  | (k', v) :: xs => by
      simp only [List.cons_append, jget, List.append_eq,
        jget_append_none h xs]

theorem jget_if_single (b : Bool) (k' : List Char) (v : JVal) (k : List Char)
    (hk : (k' = k) = False) :
    jget (if b then [(k', v)] else []) k = none := by
  cases b <;> simp [jget, hk]

namespace JwtHS256

theorem demoPayload_jget_sub (j : JwtHS256) (now v : Int) :
    jget (demoPayload j now v) ("sub".toList)
      = some (JVal.jstr ("demo-user".toList)) := by
  simp only [demoPayload]
  rw [jget_append_none (jget_if_single _ _ _ _ (by decide))]
  rw [jget_append_none (jget_if_single _ _ _ _ (by decide))]
  simp +decide [jget]

theorem demoPayload_jget_exp (j : JwtHS256) (now v : Int) :
    jget (demoPayload j now v) ("exp".toList) = some (JVal.jint (now + v)) := by
  simp only [demoPayload]
  rw [jget_append_none (jget_if_single _ _ _ _ (by decide))]
  rw [jget_append_none (jget_if_single _ _ _ _ (by decide))]
  simp +decide [jget]

theorem demoPayload_jget_nbf (j : JwtHS256) (now v : Int) :
    jget (demoPayload j now v) ("nbf".toList) = none := by
  simp only [demoPayload]
  rw [jget_append_none (jget_if_single _ _ _ _ (by decide))]
  rw [jget_append_none (jget_if_single _ _ _ _ (by decide))]
  simp +decide [jget]

theorem demoPayload_jget_aud (j : JwtHS256) (now v : Int)
    (h : truthy j.audience = true) :
    jget (demoPayload j now v) ("aud".toList)
      = some (JVal.jstr (j.audience.getD [])) := by
  simp only [demoPayload]
  rw [jget_append_none (jget_if_single _ _ _ _ (by decide))]
  rw [jget_append_some (show _ = some (JVal.jstr _) from by rw [h]; rfl)]

theorem demoPayload_jget_aud_none (j : JwtHS256) (now v : Int)
    (h : truthy j.audience = false) :
    jget (demoPayload j now v) ("aud".toList) = none := by
  simp only [demoPayload]
  rw [jget_append_none (jget_if_single _ _ _ _ (by decide))]
  rw [jget_append_none (by rw [h]; exact rfl)]
  simp +decide [jget]

theorem demoPayload_jget_iss (j : JwtHS256) (now v : Int)
    (h : truthy j.issuer = true) :
    jget (demoPayload j now v) ("iss".toList)
      = some (JVal.jstr (j.issuer.getD [])) := by
  simp only [demoPayload]
  rw [jget_append_some (show _ = some (JVal.jstr _) from by rw [h]; rfl)]

theorem demoPayload_jget_iss_none (j : JwtHS256) (now v : Int)
    (h : truthy j.issuer = false) :
    jget (demoPayload j now v) ("iss".toList) = none := by
  simp only [demoPayload]
  rw [jget_append_none (by rw [h]; exact rfl)]
  rw [jget_append_none (jget_if_single _ _ _ _ (by decide))]
  simp +decide [jget]

end JwtHS256

/-- **C6** (amended): the issue-then-verify round-trip does succeed with the
demo subject, but only when neither configured expectation is the empty
string: for every secret, every audience and issuer expectation other than
`some ""`, and every verification time not later than the issue time,
verify (leeway 0) of generate_demo_token(valid_seconds=60) returns the
payload, whose "sub" claim is "demo-user".  The unamended claim (any
expectation, including the empty string) is refuted by
claim_C6_counterexample: an empty-string audience is skipped at issue time
(`if self.audience:` is falsy) yet checked at verify time
(`is not None`), so the round-trip fails. -/
theorem claim_C6 (j : JwtHS256) (hA : j.audience ≠ some [])
    (hI : j.issuer ≠ some []) (nowI nowV : Int) (hle : nowV ≤ nowI) :
    JwtHS256.verify j (JwtHS256.generate_demo_token j nowI 60) 0 nowV
      = Except.ok (JwtHS256.demoPayload j nowI 60)
    ∧ jget (JwtHS256.demoPayload j nowI 60) ("sub".toList)
      = some (JVal.jstr ("demo-user".toList)) := by
  refine ⟨?_, JwtHS256.demoPayload_jget_sub j nowI 60⟩
  have halg : jget JwtHS256.demoHeader ("alg".toList)
      = some (JVal.jstr ("HS256".toList)) := by decide
  have hv := JwtHS256.verify_signedTokenOf j JwtHS256.demoHeader
    (JwtHS256.demoPayload j nowI 60) halg 0 nowV
  simp only [JwtHS256.generate_demo_token]
  rw [hv]
  have hexpF : decide (nowV > nowI + 60 + 0) = false :=
    decide_eq_false (by omega)
  simp only [JwtHS256.checkTail, JwtHS256.demoPayload_jget_exp,
    JwtHS256.demoPayload_jget_nbf, hexpF, Bool.false_eq_true, if_false]
  rcases haud : j.audience with _ | a
  · rcases hiss : j.issuer with _ | i
    · rfl
    · rcases i with _ | ⟨c, cs⟩
      · exact absurd hiss hI
      · have ht : truthy j.issuer = true := by rw [hiss]; rfl
        have hji := JwtHS256.demoPayload_jget_iss j nowI 60 ht
        rw [hiss] at hji
        simp only [Option.getD_some] at hji
        rw [hji]
        simp
  · rcases a with _ | ⟨c, cs⟩
    · exact absurd haud hA
    · have ht : truthy j.audience = true := by rw [haud]; rfl
      have hja := JwtHS256.demoPayload_jget_aud j nowI 60 ht
      rw [haud] at hja
      simp only [Option.getD_some] at hja
      rw [hja]
      simp only [beq_self_eq_true, Bool.not_true, Bool.false_eq_true, if_false]
      rcases hiss : j.issuer with _ | i
      · rfl
      · rcases i with _ | ⟨c2, cs2⟩
        · exact absurd hiss hI
        · have ht2 : truthy j.issuer = true := by rw [hiss]; rfl
          have hji := JwtHS256.demoPayload_jget_iss j nowI 60 ht2
          rw [hiss] at hji
          simp only [Option.getD_some] at hji
          rw [hji]
          simp

/-- **C6** counterexample: with audience configured as the empty string,
Issue(60) followed immediately by Verify with leeway 0 fails with the
audience-mismatch error rather than succeeding, because the empty-string
audience is falsy at issue time but `is not None` at verify time. -/
theorem claim_C6_counterexample :
    JwtHS256.verify ⟨"secret".toList, some [], none⟩
      (JwtHS256.generate_demo_token ⟨"secret".toList, some [], none⟩ 0 60) 0 0
      = Except.error VerifyError.audienceMismatch := by
  have halg : jget JwtHS256.demoHeader ("alg".toList)
      = some (JVal.jstr ("HS256".toList)) := by decide
  have hv := JwtHS256.verify_signedTokenOf ⟨"secret".toList, some [], none⟩
    JwtHS256.demoHeader
    (JwtHS256.demoPayload ⟨"secret".toList, some [], none⟩ 0 60) halg 0 0
  simp only [JwtHS256.generate_demo_token]
  rw [hv]
  rfl

/-- **C6** witness: a concrete verifier (secret "secret", no audience or
issuer expectation) satisfies the amended round-trip at issue time 0. -/
theorem claim_C6_witness :
    JwtHS256.verify ⟨"secret".toList, none, none⟩
      (JwtHS256.generate_demo_token ⟨"secret".toList, none, none⟩ 0 60) 0 0
      = Except.ok (JwtHS256.demoPayload ⟨"secret".toList, none, none⟩ 0 60)
    ∧ jget (JwtHS256.demoPayload ⟨"secret".toList, none, none⟩ 0 60)
        ("sub".toList)
      = some (JVal.jstr ("demo-user".toList)) :=
  claim_C6 ⟨"secret".toList, none, none⟩ (by decide) (by decide) 0 0 (by decide)

namespace JwtHS256

theorem verify_dotted_tail (j : JwtHS256) (header payload : JObj)
    (s2 : List Char) (hdot : '.' ∈ s2) (lee now : Int) :
    verify j (tokenWithSig header payload s2) lee now
      = .error .formatError := by
  have hH := b64urlEncodeBytes_props (utf8Encode (dumpObj header))
  have hP := b64urlEncodeBytes_props (utf8Encode (dumpObj payload))
  obtain ⟨a, b, t, hab⟩ := splitDot_dot_mem s2 hdot
  have hsplit : splitDot (tokenWithSig header payload s2)
      = b64urlEncodeBytes (utf8Encode (dumpObj header))
        :: b64urlEncodeBytes (utf8Encode (dumpObj payload)) :: a :: b :: t := by
    rw [tokenWithSig, splitDot_append (fun x hx => (hH x hx).1),
        splitDot_append (fun x hx => (hP x hx).1), hab]
  simp only [verify, hsplit]

theorem asciiOK_of_mem (s : List Char) (h : ∀ x ∈ s, x.toNat < 128) :
    asciiOK s = true := by
  simp only [asciiOK, List.all_eq_true, decide_eq_true_eq]
  exact h

end JwtHS256

/-- **C7** (amended): tampering with the signature segment of a correctly
issued token never verifies, but the failure is SignatureError only for an
in-alphabet replacement: for every verifier, header object with alg HS256
and payload object, replacing the character at any position i of the
signature segment by a character c that actually changes the segment (i)
never yields Except.ok, and (ii) yields the signature error exactly when c
is ASCII and not a dot; a dot replacement instead changes the segment
count and fails the format check (claim_C7_counterexample), and a
non-ASCII replacement trips the compare_digest type error, so the
unamended universal "fails with SignatureError" is false. -/
theorem claim_C7 (j : JwtHS256) (header payload : JObj)
    (halg : jget header ("alg".toList) = some (JVal.jstr ("HS256".toList)))
    (lee now : Int) (i : Nat) (c : Char)
    (hset : (JwtHS256._sign j (JwtHS256.signingInput header payload)).set i c
      ≠ JwtHS256._sign j (JwtHS256.signingInput header payload)) :
    (∀ cl, JwtHS256.verify j (JwtHS256.tokenWithSig header payload
        ((JwtHS256._sign j (JwtHS256.signingInput header payload)).set i c))
        lee now ≠ Except.ok cl)
    ∧ (c.toNat < 128 → c ≠ '.' →
        JwtHS256.verify j (JwtHS256.tokenWithSig header payload
          ((JwtHS256._sign j (JwtHS256.signingInput header payload)).set i c))
          lee now = Except.error VerifyError.signatureError) := by
  have hsig : ∀ x ∈ JwtHS256._sign j (JwtHS256.signingInput header payload),
      x ≠ '.' ∧ x.toNat < 128 := b64urlEncodeBytes_props _
  have hascSig : asciiOK (JwtHS256._sign j
      (JwtHS256.signingInput header payload)) = true :=
    JwtHS256.asciiOK_of_mem _ (fun x hx => (hsig x hx).2)
  by_cases hdot : '.' ∈ (JwtHS256._sign j
      (JwtHS256.signingInput header payload)).set i c
  · have hv := JwtHS256.verify_dotted_tail j header payload _ hdot lee now
    constructor
    · intro cl h
      rw [hv] at h
      exact Except.noConfusion h
    · intro hascii hcdot
      exfalso
      rcases List.mem_or_eq_of_mem_set hdot with hmem | hceq
      · exact (hsig _ hmem).1 rfl
      · exact hcdot hceq.symm
  · have hnd : ∀ x ∈ (JwtHS256._sign j
        (JwtHS256.signingInput header payload)).set i c, x ≠ '.' :=
      fun x hx hxeq => hdot (hxeq ▸ hx)
    have hv := JwtHS256.verify_wellFormed j header payload halg _ hnd lee now
    have hv' : JwtHS256.verify j (JwtHS256.tokenWithSig header payload
        ((JwtHS256._sign j (JwtHS256.signingInput header payload)).set i c))
        lee now
      = (match JwtHS256.compare_digest
            (JwtHS256._sign j (JwtHS256.signingInput header payload))
            ((JwtHS256._sign j (JwtHS256.signingInput header payload)).set i c)
          with
         | .error e => .error e
         | .ok same =>
             if same then JwtHS256.checkTail j payload lee now
             else .error .signatureError) := by
      rw [JwtHS256.tokenWithSig]
      exact hv
    have hbeq : ((JwtHS256._sign j (JwtHS256.signingInput header payload))
        == (JwtHS256._sign j (JwtHS256.signingInput header payload)).set i c)
        = false := by
      rw [beq_eq_false_iff_ne]
      exact fun h => hset h.symm
    constructor
    · intro cl h
      rw [hv'] at h
      cases has2 : asciiOK ((JwtHS256._sign j
          (JwtHS256.signingInput header payload)).set i c) with
      | false =>
          rw [show JwtHS256.compare_digest
              (JwtHS256._sign j (JwtHS256.signingInput header payload))
              ((JwtHS256._sign j (JwtHS256.signingInput header payload)).set i c)
              = .error .compareTypeError from by
            simp [JwtHS256.compare_digest, hascSig, has2]] at h
          exact Except.noConfusion h
      | true =>
          rw [show JwtHS256.compare_digest
              (JwtHS256._sign j (JwtHS256.signingInput header payload))
              ((JwtHS256._sign j (JwtHS256.signingInput header payload)).set i c)
              = .ok false from by
            simp [JwtHS256.compare_digest, hascSig, has2, hbeq]] at h
          simp at h
    · intro hascii hcdot
      have has2 : asciiOK ((JwtHS256._sign j
          (JwtHS256.signingInput header payload)).set i c) = true := by
        refine JwtHS256.asciiOK_of_mem _ (fun x hx => ?_)
        rcases List.mem_or_eq_of_mem_set hx with hmem | hceq
        · exact (hsig _ hmem).2
        · exact hceq ▸ hascii
      rw [hv', show JwtHS256.compare_digest
          (JwtHS256._sign j (JwtHS256.signingInput header payload))
          ((JwtHS256._sign j (JwtHS256.signingInput header payload)).set i c)
          = .ok false from by
        simp [JwtHS256.compare_digest, hascSig, has2, hbeq]]
      rfl

/-- **C7** counterexample: on a concrete issued token, replacing the first
character of the signature segment with '.' — a genuine change, since no
base64url signature character is a dot — makes Verify fail with the
format error (the dot changes the segment count), not the signature
error, refuting the claim that any one-character signature tamper fails
with SignatureError. -/
theorem claim_C7_counterexample :
    (JwtHS256._sign ⟨"secret".toList, none, none⟩
        (JwtHS256.signingInput JwtHS256.demoHeader
          (JwtHS256.demoPayload ⟨"secret".toList, none, none⟩ 0 60))).head?
      ≠ some '.'
    ∧ JwtHS256.verify ⟨"secret".toList, none, none⟩
        (JwtHS256.tokenWithSig JwtHS256.demoHeader
          (JwtHS256.demoPayload ⟨"secret".toList, none, none⟩ 0 60)
          ((JwtHS256._sign ⟨"secret".toList, none, none⟩
            (JwtHS256.signingInput JwtHS256.demoHeader
              (JwtHS256.demoPayload ⟨"secret".toList, none, none⟩ 0 60))).set
            0 '.'))
        30 0
      = Except.error VerifyError.formatError := by
  have hsig : ∀ x ∈ JwtHS256._sign ⟨"secret".toList, none, none⟩
      (JwtHS256.signingInput JwtHS256.demoHeader
        (JwtHS256.demoPayload ⟨"secret".toList, none, none⟩ 0 60)),
      x ≠ '.' ∧ x.toNat < 128 := b64urlEncodeBytes_props _
  have hne : JwtHS256._sign ⟨"secret".toList, none, none⟩
      (JwtHS256.signingInput JwtHS256.demoHeader
        (JwtHS256.demoPayload ⟨"secret".toList, none, none⟩ 0 60)) ≠ [] :=
    b64urlEncodeBytes_ne_nil (hmacSha256_ne_nil _ _)
  rcases hsg : JwtHS256._sign ⟨"secret".toList, none, none⟩
      (JwtHS256.signingInput JwtHS256.demoHeader
        (JwtHS256.demoPayload ⟨"secret".toList, none, none⟩ 0 60))
    with _ | ⟨s0, rest⟩
  · exact absurd hsg hne
  · have hs0 : s0 ≠ '.' := by
      refine (hsig s0 ?_).1
      rw [hsg]
      exact List.mem_cons_self s0 rest
    constructor
    · intro h
      rw [List.head?_cons, Option.some.injEq] at h
      exact hs0 h
    · rw [show (s0 :: rest).set 0 '.' = '.' :: rest from rfl]
      exact JwtHS256.verify_dotted_tail _ _ _ _
        (List.mem_cons_self '.' rest) 30 0

/-- **C7** witness: on a concrete issued token, replacing the first
signature character with '!' (ASCII, not a dot, never a base64url
character) makes Verify fail with exactly the signature error, as the
amended claim states. -/
theorem claim_C7_witness :
    JwtHS256.verify ⟨"secret".toList, none, none⟩
      (JwtHS256.tokenWithSig JwtHS256.demoHeader
        (JwtHS256.demoPayload ⟨"secret".toList, none, none⟩ 0 60)
        ((JwtHS256._sign ⟨"secret".toList, none, none⟩
          (JwtHS256.signingInput JwtHS256.demoHeader
            (JwtHS256.demoPayload ⟨"secret".toList, none, none⟩ 0 60))).set
          0 '!'))
      30 0
    = Except.error VerifyError.signatureError := by
  have hne : JwtHS256._sign ⟨"secret".toList, none, none⟩
      (JwtHS256.signingInput JwtHS256.demoHeader
        (JwtHS256.demoPayload ⟨"secret".toList, none, none⟩ 0 60)) ≠ [] :=
    b64urlEncodeBytes_ne_nil (hmacSha256_ne_nil _ _)
  have hset : (JwtHS256._sign ⟨"secret".toList, none, none⟩
      (JwtHS256.signingInput JwtHS256.demoHeader
        (JwtHS256.demoPayload ⟨"secret".toList, none, none⟩ 0 60))).set 0 '!'
      ≠ JwtHS256._sign ⟨"secret".toList, none, none⟩
      (JwtHS256.signingInput JwtHS256.demoHeader
        (JwtHS256.demoPayload ⟨"secret".toList, none, none⟩ 0 60)) := by
    rcases hsg : JwtHS256._sign ⟨"secret".toList, none, none⟩
        (JwtHS256.signingInput JwtHS256.demoHeader
          (JwtHS256.demoPayload ⟨"secret".toList, none, none⟩ 0 60))
      with _ | ⟨s0, rest⟩
    · exact absurd hsg hne
    · have hmem : s0 ∈ JwtHS256._sign ⟨"secret".toList, none, none⟩
          (JwtHS256.signingInput JwtHS256.demoHeader
            (JwtHS256.demoPayload ⟨"secret".toList, none, none⟩ 0 60)) := by
        rw [hsg]
        exact List.mem_cons_self s0 rest
      obtain ⟨n, hn, hs0⟩ := b64urlEncodeBytes_mem _ s0 hmem
      intro h
      rw [show (s0 :: rest).set 0 '!' = '!' :: rest from rfl,
        List.cons.injEq] at h
      have hall : ∀ m, m < 64 → ('!' : Char) ≠ b64c m := by decide
      exact hall n hn (h.1.trans hs0)
  exact (claim_C7 ⟨"secret".toList, none, none⟩ JwtHS256.demoHeader
    (JwtHS256.demoPayload ⟨"secret".toList, none, none⟩ 0 60) (by decide)
    30 0 0 '!' hset).2 (by decide) (by decide)

/-- **C8** (amended): on a correctly signed token whose payload passes the
expiry and not-before checks, verify performs the audience (resp. issuer)
comparison exactly when the configured expectation is not None — including
when it is the empty string, contrary to the claim's "only when non-empty":
with no expectation the corresponding mismatch error never occurs, and
with an expectation `some a` (empty or not) a payload whose claim differs
fails with the mismatch error.  claim_C8_counterexample shows the
empty-string expectation being checked. -/
theorem claim_C8 (j : JwtHS256) (payload : JObj) (lee now : Int)
    (hexp : jget payload ("exp".toList) = none)
    (hnbf : jget payload ("nbf".toList) = none) :
    (j.audience = none →
      JwtHS256.verify j (JwtHS256.signedTokenOf j JwtHS256.demoHeader payload)
        lee now ≠ Except.error VerifyError.audienceMismatch)
    ∧ (∀ a, j.audience = some a →
        (jget payload ("aud".toList) == some (JVal.jstr a)) = false →
        JwtHS256.verify j (JwtHS256.signedTokenOf j JwtHS256.demoHeader payload)
          lee now = Except.error VerifyError.audienceMismatch)
    ∧ (j.issuer = none →
      JwtHS256.verify j (JwtHS256.signedTokenOf j JwtHS256.demoHeader payload)
        lee now ≠ Except.error VerifyError.issuerMismatch)
    ∧ (∀ i, j.issuer = some i →
        (jget payload ("iss".toList) == some (JVal.jstr i)) = false →
        (∀ a, j.audience = some a →
          (jget payload ("aud".toList) == some (JVal.jstr a)) = true) →
        JwtHS256.verify j (JwtHS256.signedTokenOf j JwtHS256.demoHeader payload)
          lee now = Except.error VerifyError.issuerMismatch) := by
  have hv := JwtHS256.verify_signedTokenOf j JwtHS256.demoHeader payload
    (by decide) lee now
  rw [hv]
  simp only [JwtHS256.checkTail, hexp, hnbf, Bool.false_eq_true, if_false]
  refine ⟨?_, ?_, ?_, ?_⟩
  · intro hA h
    rw [hA] at h
    rcases hI : j.issuer with _ | i
    · rw [hI] at h
      simp at h
    · rw [hI] at h
      simp at h
      split at h <;> simp_all
  · intro a hA hbeq
    rw [hA]
    simp only [hbeq, Bool.not_false, eq_self_iff_true, if_true]
  · intro hI h
    rw [hI] at h
    rcases hA : j.audience with _ | a
    · rw [hA] at h
      simp at h
    · rw [hA] at h
      simp at h
      split at h <;> simp_all
  · intro i hI hbeqI hAud
    rw [hI]
    rcases hA : j.audience with _ | a
    · simp only [Bool.false_eq_true, if_false, hbeqI, Bool.not_false,
        eq_self_iff_true, if_true]
    · have hb := hAud a hA
      simp only [hb, Bool.not_true, Bool.false_eq_true, if_false, hbeqI,
        Bool.not_false, eq_self_iff_true, if_true]

/-- **C8** counterexample: an authenticator configured with the empty
string as audience expectation does perform the audience check — a signed
token with an empty payload fails with the audience-mismatch error, where
the claim says an empty expectation performs no check and raises no
mismatch error. -/
theorem claim_C8_counterexample :
    JwtHS256.verify ⟨"secret".toList, some [], none⟩
      (JwtHS256.signedTokenOf ⟨"secret".toList, some [], none⟩
        JwtHS256.demoHeader []) 30 0
      = Except.error VerifyError.audienceMismatch := by
  rw [JwtHS256.verify_signedTokenOf _ _ _ (by decide) 30 0]
  rfl

/-- **C8** witness: a non-empty audience expectation "x" against an empty
payload yields the audience-mismatch error, as the amended claim states
for any configured expectation. -/
theorem claim_C8_witness :
    JwtHS256.verify ⟨"secret".toList, some ("x".toList), none⟩
      (JwtHS256.signedTokenOf ⟨"secret".toList, some ("x".toList), none⟩
        JwtHS256.demoHeader []) 0 0
      = Except.error VerifyError.audienceMismatch :=
  (claim_C8 ⟨"secret".toList, some ("x".toList), none⟩ [] 0 0 rfl rfl).2.1
    ("x".toList) rfl (by decide)

/-- **C10**: on a correctly signed token, when the payload's "exp" claim is
absent or not an integer the expiry check never fires — verify never
returns the expired error, for every current time and leeway — and
likewise an absent or non-integer "nbf" never produces the not-yet-valid
error, because both checks are guarded by isinstance(..., int). -/
theorem claim_C10 (j : JwtHS256) (payload : JObj) (lee now : Int)
    (hexp : jget payload ("exp".toList) = none
      ∨ ∃ s, jget payload ("exp".toList) = some (JVal.jstr s))
    (hnbf : jget payload ("nbf".toList) = none
      ∨ ∃ s, jget payload ("nbf".toList) = some (JVal.jstr s)) :
    JwtHS256.verify j (JwtHS256.signedTokenOf j JwtHS256.demoHeader payload)
      lee now ≠ Except.error VerifyError.expiredError
    ∧ JwtHS256.verify j (JwtHS256.signedTokenOf j JwtHS256.demoHeader payload)
      lee now ≠ Except.error VerifyError.notYetValidError := by
  have hv := JwtHS256.verify_signedTokenOf j JwtHS256.demoHeader payload
    (by decide) lee now
  constructor
  · intro h
    rw [hv] at h
    simp only [JwtHS256.checkTail] at h
    rcases hexp with he | ⟨s, he⟩ <;> rcases hnbf with hn | ⟨s2, hn⟩ <;>
      rw [he, hn] at h <;>
      simp only [Bool.false_eq_true, if_false] at h <;>
      split at h <;>
      first
      | (split at h <;> simp at h)
      | simp at h
  · intro h
    rw [hv] at h
    simp only [JwtHS256.checkTail] at h
    rcases hexp with he | ⟨s, he⟩ <;> rcases hnbf with hn | ⟨s2, hn⟩ <;>
      rw [he, hn] at h <;>
      simp only [Bool.false_eq_true, if_false] at h <;>
      split at h <;>
      first
      | (split at h <;> simp at h)
      | simp at h

/-- **C10** witness: a concrete signed token with an empty payload — no
exp and no nbf claim at all — is never rejected as expired or
not-yet-valid. -/
theorem claim_C10_witness :
    JwtHS256.verify ⟨"secret".toList, none, none⟩
      (JwtHS256.signedTokenOf ⟨"secret".toList, none, none⟩
        JwtHS256.demoHeader []) 0 0 ≠ Except.error VerifyError.expiredError
    ∧ JwtHS256.verify ⟨"secret".toList, none, none⟩
      (JwtHS256.signedTokenOf ⟨"secret".toList, none, none⟩
        JwtHS256.demoHeader []) 0 0
      ≠ Except.error VerifyError.notYetValidError :=
  claim_C10 ⟨"secret".toList, none, none⟩ [] 0 0 (Or.inl rfl) (Or.inl rfl)

/-- **C9** (amended): the gate does refuse both failure modes without
invoking the wrapped app, and with the same 401 status — but not with the
same externally observable response: a protected request without a bearer
credential is answered 401 with the missing-token body, one whose
credential fails Verify is answered 401 with the invalid-token body, and
the two bodies differ, leaking which failure occurred.  The unamended
"same externally observable unauthorized response / no distinguishing
detail" claim is refuted by claim_C9_counterexample (the repository's own
middleware tests assert the two distinct bodies). -/
theorem claim_C9 (jwt : JwtHS256) (allow : List (List Char))
    (scope1 scope2 : Scope) (now : Int)
    (h1t : scope1.stype = "http".toList) (h1p : scope1.path ∉ allow)
    (h1a : startsWithL ("bearer ".toList) (lowerAscii (authOf scope1)) = false)
    (h2t : scope2.stype = "http".toList) (h2p : scope2.path ∉ allow)
    (h2a : startsWithL ("bearer ".toList) (lowerAscii (authOf scope2)) = true)
    (e : VerifyError)
    (h2v : JwtHS256.verify jwt (tokenOf scope2) 30 now = Except.error e) :
    JwtAuthMiddleware.call jwt true allow scope1 now
      = GateOutcome.respond 401 missingBody
    ∧ JwtAuthMiddleware.call jwt true allow scope2 now
      = GateOutcome.respond 401 invalidBody
    ∧ missingBody ≠ invalidBody := by
  refine ⟨?_, ?_, by decide⟩
  · simp only [JwtAuthMiddleware.call]
    rw [if_neg (show ¬(scope1.stype ≠ "http".toList) from fun hne => hne h1t)]
    rw [if_neg (show ¬(true = false) by simp)]
    rw [if_neg h1p]
    rw [if_pos h1a]
  · simp only [JwtAuthMiddleware.call]
    rw [if_neg (show ¬(scope2.stype ≠ "http".toList) from fun hne => hne h2t)]
    rw [if_neg (show ¬(true = false) by simp)]
    rw [if_neg h2p]
    rw [if_neg (show ¬(startsWithL ("bearer ".toList)
      (lowerAscii (authOf scope2)) = false) from fun hf => by
        rw [h2a] at hf
        exact absurd hf (by decide))]
    rw [h2v]

/-- **C9** counterexample: under the tested configuration (required, empty
allowlist) a request with no authorization header and a request bearing an
unparseable token are both answered 401 but with different bodies —
"missing bearer token" versus "invalid token" — so the two failures are
externally distinguishable, refuting the claim. -/
theorem claim_C9_counterexample :
    JwtAuthMiddleware.call ⟨"secret".toList, none, none⟩ true []
      ⟨"http".toList, "/mcp".toList, []⟩ 0
      = GateOutcome.respond 401 missingBody
    ∧ JwtAuthMiddleware.call ⟨"secret".toList, none, none⟩ true []
      ⟨"http".toList, "/mcp".toList,
        [("authorization".toList, "Bearer not-a-real-token".toList)]⟩ 0
      = GateOutcome.respond 401 invalidBody
    ∧ missingBody ≠ invalidBody :=
  ⟨rfl, rfl, by decide⟩

/-- **C9** witness: the amended per-mode characterization instantiated at
two concrete protected requests, one with no credential and one with a
bearer token that fails Verify with the format error. -/
theorem claim_C9_witness :
    JwtAuthMiddleware.call ⟨"secret".toList, none, none⟩ true []
      ⟨"http".toList, "/mcp".toList, []⟩ 0
      = GateOutcome.respond 401 missingBody
    ∧ JwtAuthMiddleware.call ⟨"secret".toList, none, none⟩ true []
      ⟨"http".toList, "/mcp".toList,
        [("authorization".toList, "Bearer bad".toList)]⟩ 0
      = GateOutcome.respond 401 invalidBody
    ∧ missingBody ≠ invalidBody :=
  claim_C9 ⟨"secret".toList, none, none⟩ []
    ⟨"http".toList, "/mcp".toList, []⟩
    ⟨"http".toList, "/mcp".toList,
      [("authorization".toList, "Bearer bad".toList)]⟩ 0
    rfl (by simp) (by decide) rfl (by simp) (by decide)
    VerifyError.formatError rfl
